import Mathlib

/-! # terraform-provider-dokku: resource reconcilers

A shallow embedding of the four resource implementations
(`domain_resource.go`, `letsencrypt_resource.go`, `mariadb_link_resource.go`,
`nats_link_resource.go`) and the properties of their Create / Read / Update /
Delete / ImportState operations.

Modelling conventions.

* A Go `string` is a list of characters (`Str`); the texts handled here are
  taken to be valid UTF-8, so splitting on the one-byte separators used by the
  source (`":"`, `" "`, `"\n"`) agrees with splitting the byte sequence.
* The command channel (`run`) and the `dokkuclient.Client` methods live outside
  the translated files.  They are parameters: a `Remote` answers every call as
  an arbitrary function of the calls issued before it on the same channel and
  of the call's arguments.
* `req.State.Get` and `req.Plan.Get` decode a tuple of the resource's own
  schema into its model and append no diagnostic; an operation takes the
  decoded tuple as its argument.
* An operation returns the diagnostics it appended, what it did to
  `resp.State`, and the calls it issued, in order.
* A run-time panic (slice index out of range) is the result `none`.
-/

namespace Dokku

/-- A Go string, as its sequence of characters. -/
abbrev Str := List Char

/-! ## Go standard library: package `unicode` and package `strings` -/

/-- Go `unicode.IsSpace`: the Latin-1 spaces `\t \n \v \f \r`, space, U+0085,
U+00A0, and the other code points with the White_Space property. -/
def unicode.IsSpace (c : Char) : Bool :=
  let n := c.toNat
  n = 0x09 || n = 0x0A || n = 0x0B || n = 0x0C || n = 0x0D || n = 0x20 ||
  n = 0x85 || n = 0xA0 || n = 0x1680 || (0x2000 ≤ n && n ≤ 0x200A) ||
  n = 0x2028 || n = 0x2029 || n = 0x202F || n = 0x205F || n = 0x3000

/-- Go `strings.Split(s, sep)` for a separator of one character: the pieces of
`s` between the occurrences of `sep`; one more piece than occurrences, so the
result is never empty (`Split("", sep)` is `[""]`). -/
def strings.Split : Str → Char → List Str
  | [], _ => [[]]
  | c :: cs, sep =>
    if c = sep then [] :: strings.Split cs sep
    else
      match strings.Split cs sep with
      | [] => [[c]]
      | p :: ps => (c :: p) :: ps

/-- Go `strings.TrimSuffix(s, suffix)`: `s` without the trailing `suffix`, or
`s` itself when it does not end with `suffix`. -/
def strings.TrimSuffix (s suffix : Str) : Str :=
  if suffix.isSuffixOf s then s.take (s.length - suffix.length) else s

/-- Go `strings.TrimSpace(s)`: `s` without leading and trailing white space. -/
def strings.TrimSpace (s : Str) : Str :=
  ((s.dropWhile unicode.IsSpace).reverse.dropWhile unicode.IsSpace).reverse

/-- Go slice indexing `parts[i]`: `none` is the index-out-of-range panic. -/
def index (parts : List Str) (i : Nat) : Option Str := parts.get? i

/-! ## terraform-plugin-framework -/

/-- Framework `types.String`: a string attribute is null, unknown or known. -/
inductive types.String where
  | null
  | unknown
  | known (s : Str)
deriving DecidableEq

/-- Framework `ValueString()`: the known value, `""` for null and unknown. -/
def types.String.ValueString : types.String → Str
  | .known s => s
  | _ => []

/-- Framework `IsNull()`. -/
def types.String.IsNull : types.String → Bool
  | .null => true
  | _ => false

/-- One entry of `resp.Diagnostics`.  Every diagnostic the resources append is
an error: `AddError(summary, detail)` has no path, `AddAttributeError(path,
summary, detail)` names the root attribute. -/
structure Diagnostic where
  path : Option Str
  summary : Str
  detail : Str
deriving DecidableEq

/-- `resp.Diagnostics.AddError(summary, detail)`. -/
def Diagnostic.AddError (summary detail : Str) : Diagnostic :=
  { path := none, summary := summary, detail := detail }

/-- `resp.Diagnostics.AddAttributeError(path.Root(attr), summary, detail)`. -/
def Diagnostic.AddAttributeError (attr summary detail : Str) : Diagnostic :=
  { path := some attr, summary := summary, detail := detail }

/-- `resp.Diagnostics.HasError()`. -/
def HasError (ds : List Diagnostic) : Bool := !ds.isEmpty

/-- What an operation did to `resp.State`: nothing, `Set` (store a tuple as the
new state), or `RemoveResource`. -/
inductive StateWrite (M : Type) where
  | untouched
  | set (m : M)
  | removed
deriving DecidableEq

/-! ## The command channel -/

/-- One call on the channel: `run` (a raw command line, used by the domain
resource) or one of the `dokkuclient.Client` methods, with its arguments. -/
inductive Call where
  | run (cmd : Str)
  | LetsencryptIsEnabled (appName : Str)
  | LetsencryptEnable (appName : Str)
  | LetsencryptAddCronJob
  | LetsencryptDisable (appName : Str)
  | SimpleServiceExists (service name : Str)
  | SimpleServiceLinkExists (service name appName : Str)
  | SimpleServiceLinkCreate (service name appName : Str) (args : List Str)
  | SimpleServiceLinkRemove (service name appName : Str)
deriving DecidableEq

/-- The calls that change the remote host.  The three presence extractors and
the `domains:report` query are the only calls that do not. -/
def Call.isMutation : Call → Bool
  | .run cmd => !("domains:report ".toList.isPrefixOf cmd)
  | .LetsencryptIsEnabled _ => false
  | .SimpleServiceExists _ _ => false
  | .SimpleServiceLinkExists _ _ _ => false
  | _ => true

/-- The remote side.  `run` and the `dokkuclient` methods are defined outside
the translated files, so each is a parameter: its answer is a function of the
calls issued so far and of its arguments.  A Go `error` is `none` for `nil` and
otherwise carries the text of `err.Error()`.  `run` returns
`(stdout, stderr, err)`; an extractor returns `(exists, err)`. -/
structure Remote where
  run : List Call → Str → Str × Str × Option Str
  LetsencryptIsEnabled : List Call → Str → Bool × Option Str
  LetsencryptEnable : List Call → Str → Option Str
  LetsencryptAddCronJob : List Call → Option Str
  LetsencryptDisable : List Call → Str → Option Str
  SimpleServiceExists : List Call → Str → Str → Bool × Option Str
  SimpleServiceLinkExists : List Call → Str → Str → Str → Bool × Option Str
  SimpleServiceLinkCreate : List Call → Str → Str → Str → List Str → Option Str
  SimpleServiceLinkRemove : List Call → Str → Str → Str → Option Str

/-- The result of one operation: the diagnostics appended, the write to
`resp.State`, and the calls issued on the channel, in order. -/
structure Response (M : Type) where
  Diagnostics : List Diagnostic
  State : StateWrite M
  calls : List Call
deriving DecidableEq

/-! ## domain_resource.go -/

/-- The state tuple of a domain binding. -/
structure domainResourceModel where
  AppName : types.String
  Domain : types.String
deriving DecidableEq

/-- The inner loop of `domainResource.Read`:
`for _, domain := range strings.Split(domainList, " ")` setting `found` and
breaking at the first token equal to the stored domain. -/
def domainResource.Read.rangeDomains (d : Str) : List Str → Bool
  | [] => false
  | domain :: rest =>
    if domain = d then true else domainResource.Read.rangeDomains d rest

/-- The outer loop of `domainResource.Read` over the report lines; the result
is the final value of `found`, or `none` when `parts[1]` is out of range. -/
def domainResource.Read.rangeLines (d : Str) : List Str → Option Bool
  | [] => some false
  | line :: rest =>
    let parts := strings.Split line ':'
    match index parts 0 with
    | none => none
    | some p0 =>
      let key := strings.TrimSpace p0
      if key = "Domains app vhosts".toList then
        match index parts 1 with
        | none => none
        | some p1 =>
          let domainList := strings.TrimSpace p1
          if domainList ≠ [] then
            some (domainResource.Read.rangeDomains d (strings.Split domainList ' '))
          else some false
      else domainResource.Read.rangeLines d rest

/-- The function `domainResource.Read`. -/
def domainResource.Read (c : Remote) (h : List Call) (state : domainResourceModel) :
    Option (Response domainResourceModel) :=
  let cmd := "domains:report ".toList ++ state.AppName.ValueString
  match c.run h cmd with
  | (_, _, some err) =>
    some { Diagnostics := [Diagnostic.AddError "Unable to read domains".toList
                            ("Unable to read domains. ".toList ++ err)],
           State := .untouched, calls := [.run cmd] }
  | (stdout, _, none) =>
    let lines := strings.Split (strings.TrimSuffix stdout "\n".toList) '\n'
    match domainResource.Read.rangeLines state.Domain.ValueString lines with
    | none => none
    | some false =>
      some { Diagnostics := [Diagnostic.AddError "Domain not found".toList
                              "Domain not found".toList],
             State := .untouched, calls := [.run cmd] }
    | some true =>
      some { Diagnostics := [], State := .set state, calls := [.run cmd] }

/-- The function `domainResource.Create`. -/
def domainResource.Create (c : Remote) (h : List Call) (plan : domainResourceModel) :
    Response domainResourceModel :=
  let cmd := "domains:add ".toList ++ plan.AppName.ValueString ++ " ".toList ++
    plan.Domain.ValueString
  match c.run h cmd with
  | (_, _, some err) =>
    { Diagnostics := [Diagnostic.AddError "Unable to create domain".toList
                       ("Unable to create domain. ".toList ++ err)],
      State := .untouched, calls := [.run cmd] }
  | (_, _, none) =>
    { Diagnostics := [], State := .set plan, calls := [.run cmd] }

/-- The function `domainResource.Update`. -/
def domainResource.Update (c : Remote) (h : List Call) (plan state : domainResourceModel) :
    Response domainResourceModel :=
  if plan.AppName.ValueString ≠ state.AppName.ValueString then
    { Diagnostics := [Diagnostic.AddAttributeError "app_name".toList
                       "Unable to change app name".toList "Unable to change app name".toList],
      State := .untouched, calls := [] }
  else if plan.Domain.ValueString ≠ state.Domain.ValueString then
    let rm := "domains:remove ".toList ++ state.AppName.ValueString ++ " ".toList ++
      state.Domain.ValueString
    match c.run h rm with
    | (_, _, some err) =>
      { Diagnostics := [Diagnostic.AddError "Unable to create domains".toList
                         ("Unable to create domains. ".toList ++ err)],
        State := .untouched, calls := [.run rm] }
    | (_, _, none) =>
      let add := "domains:add ".toList ++ plan.AppName.ValueString ++ " ".toList ++
        plan.Domain.ValueString
      match c.run (h ++ [.run rm]) add with
      | (_, _, some err) =>
        { Diagnostics := [Diagnostic.AddError "Unable to create domain".toList
                           ("Unable to create domain. ".toList ++ err)],
          State := .untouched, calls := [.run rm, .run add] }
      | (_, _, none) =>
        { Diagnostics := [], State := .set plan, calls := [.run rm, .run add] }
  else
    { Diagnostics := [], State := .set plan, calls := [] }

/-- The function `domainResource.Delete`. -/
def domainResource.Delete (c : Remote) (h : List Call) (state : domainResourceModel) :
    Response domainResourceModel :=
  let cmd := "domains:remove ".toList ++ state.AppName.ValueString ++ " ".toList ++
    state.Domain.ValueString
  match c.run h cmd with
  | (_, _, some err) =>
    { Diagnostics := [Diagnostic.AddError "Unable to delete domain".toList
                       ("Unable to delete domain. ".toList ++ err)],
      State := .untouched, calls := [.run cmd] }
  | (_, _, none) =>
    { Diagnostics := [], State := .untouched, calls := [.run cmd] }

/-- The function `domainResource.ImportState`: `resp.State` starts with every
attribute null and `SetAttribute` stores a known string. -/
def domainResource.ImportState (ID : Str) : Option (Response domainResourceModel) :=
  let parts := strings.Split ID ' '
  let s0 : domainResourceModel := { AppName := .null, Domain := .null }
  match index parts 0 with
  | none => none
  | some p0 =>
    let s1 := { s0 with AppName := .known p0 }
    match index parts 1 with
    | none => none
    | some p1 =>
      let s2 := { s1 with Domain := .known p1 }
      some { Diagnostics := [], State := .set s2, calls := [] }

/-! ## letsencrypt_resource.go -/

/-- The state tuple of a certificate lifecycle. -/
structure letsencryptResourceModel where
  AppName : types.String
deriving DecidableEq

/-- The function `letsencryptResource.Read`. -/
def letsencryptResource.Read (c : Remote) (h : List Call) (state : letsencryptResourceModel) :
    Response letsencryptResourceModel :=
  let q := Call.LetsencryptIsEnabled state.AppName.ValueString
  match c.LetsencryptIsEnabled h state.AppName.ValueString with
  | (_, some err) =>
    { Diagnostics := [Diagnostic.AddError "Unable to read letsencrypt status".toList
                       ("Unable to read letsencrypt status. ".toList ++ err)],
      State := .untouched, calls := [q] }
  | (exists_, none) =>
    if !exists_ then
      { Diagnostics := [], State := .removed, calls := [q] }
    else
      { Diagnostics := [], State := .set state, calls := [q] }

/-- The function `letsencryptResource.Create`. -/
def letsencryptResource.Create (c : Remote) (h : List Call) (plan : letsencryptResourceModel) :
    Response letsencryptResourceModel :=
  let q := Call.LetsencryptIsEnabled plan.AppName.ValueString
  match c.LetsencryptIsEnabled h plan.AppName.ValueString with
  | (_, some err) =>
    { Diagnostics := [Diagnostic.AddError "Unable to read letsencrypt status".toList
                       ("Unable to read letsencrypt status. ".toList ++ err)],
      State := .untouched, calls := [q] }
  | (exists_, none) =>
    if exists_ then
      { Diagnostics := [Diagnostic.AddError "Letsencrypt already enabled for app".toList
                         "Letsencrypt already enabled for app".toList],
        State := .untouched, calls := [q] }
    else
      let en := Call.LetsencryptEnable plan.AppName.ValueString
      match c.LetsencryptEnable (h ++ [q]) plan.AppName.ValueString with
      | some err =>
        { Diagnostics := [Diagnostic.AddError "Unable to enable letsencrypt".toList
                           ("Unable to enable letsencrypt. ".toList ++ err)],
          State := .untouched, calls := [q, en] }
      | none =>
        match c.LetsencryptAddCronJob (h ++ [q, en]) with
        | some err =>
          { Diagnostics := [Diagnostic.AddError "Unable to add letsencrypt cronjob".toList
                             ("Unable to add letsencrypt cronjob. ".toList ++ err)],
            State := .untouched, calls := [q, en, .LetsencryptAddCronJob] }
        | none =>
          { Diagnostics := [], State := .set plan, calls := [q, en, .LetsencryptAddCronJob] }

/-- The function `letsencryptResource.Update`. -/
def letsencryptResource.Update (_c : Remote) (_h : List Call)
    (_plan _state : letsencryptResourceModel) : Response letsencryptResourceModel :=
  { Diagnostics := [Diagnostic.AddError "Resource doesn't support Update".toList
                     "Resource doesn't support Update".toList],
    State := .untouched, calls := [] }

/-- The function `letsencryptResource.Delete`. -/
def letsencryptResource.Delete (c : Remote) (h : List Call) (state : letsencryptResourceModel) :
    Response letsencryptResourceModel :=
  let q := Call.LetsencryptIsEnabled state.AppName.ValueString
  match c.LetsencryptIsEnabled h state.AppName.ValueString with
  | (_, some err) =>
    { Diagnostics := [Diagnostic.AddError "Unable to read letsencrypt status".toList
                       ("Unable to read letsencrypt status. ".toList ++ err)],
      State := .untouched, calls := [q] }
  | (exists_, none) =>
    if !exists_ then
      { Diagnostics := [], State := .untouched, calls := [q] }
    else
      let dis := Call.LetsencryptDisable state.AppName.ValueString
      match c.LetsencryptDisable (h ++ [q]) state.AppName.ValueString with
      | some err =>
        { Diagnostics := [Diagnostic.AddError "Unable to disable letsencrypt".toList
                           ("Unable to disable letsencrypt. ".toList ++ err)],
          State := .untouched, calls := [q, dis] }
      | none =>
        { Diagnostics := [], State := .untouched, calls := [q, dis] }

/-! ## services/mariadb_link_resource.go and services/nats_link_resource.go

The two files are the same text up to the resource's name, the service string
passed to the client (`"mariadb"` / `"nats"`), the name used in the messages
(`"mariaDB"` / `"nats"`) and the alias pattern.  The operations are written
once over these and instantiated for each resource. -/

/-- The state tuple of a service link (`mariaDBLinkResourceModel`,
`natsLinkResourceModel`). -/
structure linkResourceModel where
  AppName : types.String
  ServiceName : types.String
  Alias : types.String
deriving DecidableEq

/-- What differs between the two link files: the service string given to the
client and the name written in the diagnostics. -/
structure LinkKind where
  service : Str
  title : Str
deriving DecidableEq

/-- The mariadb link resource. -/
def mariadb : LinkKind := { service := "mariadb".toList, title := "mariaDB".toList }

/-- The nats link resource. -/
def nats : LinkKind := { service := "nats".toList, title := "nats".toList }

/-- The diagnostic `"Unable to check <title> service existence"` with the
error text appended to the detail. -/
def LinkKind.checkServiceError (k : LinkKind) (err : Str) : Diagnostic :=
  Diagnostic.AddError ("Unable to check ".toList ++ k.title ++ " service existence".toList)
    ("Unable to check ".toList ++ k.title ++ " service existence. ".toList ++ err)

/-- The diagnostic `"Unable to check <title> link existence"` with the error
text appended to the detail. -/
def LinkKind.checkLinkError (k : LinkKind) (err : Str) : Diagnostic :=
  Diagnostic.AddError ("Unable to check ".toList ++ k.title ++ " link existence".toList)
    ("Unable to check ".toList ++ k.title ++ " link existence. ".toList ++ err)

/-- The function `Read` of a link resource. -/
def linkResource.Read (k : LinkKind) (c : Remote) (h : List Call) (state : linkResourceModel) :
    Response linkResourceModel :=
  let q1 := Call.SimpleServiceExists k.service state.ServiceName.ValueString
  match c.SimpleServiceExists h k.service state.ServiceName.ValueString with
  | (_, some err) =>
    { Diagnostics := [k.checkServiceError err], State := .untouched, calls := [q1] }
  | (exists_, none) =>
    if !exists_ then
      { Diagnostics := [Diagnostic.AddError ("Unable to find ".toList ++ k.title ++ " service".toList)
                         ("Unable to find ".toList ++ k.title ++ " service".toList)],
        State := .untouched, calls := [q1] }
    else
      let q2 := Call.SimpleServiceLinkExists k.service state.ServiceName.ValueString
        state.AppName.ValueString
      match c.SimpleServiceLinkExists (h ++ [q1]) k.service state.ServiceName.ValueString
          state.AppName.ValueString with
      | (_, some err) =>
        { Diagnostics := [k.checkLinkError err], State := .untouched, calls := [q1, q2] }
      | (linked, none) =>
        if !linked then
          { Diagnostics := [], State := .removed, calls := [q1, q2] }
        else
          { Diagnostics := [], State := .set state, calls := [q1, q2] }

/-- The function `Create` of a link resource.  `DoubleLineArg` is the
`dokkuclient` function that builds one flag from a name and a value; it is
defined outside the translated files and is a parameter. -/
def linkResource.Create (k : LinkKind) (DoubleLineArg : Str → Str → Str) (c : Remote)
    (h : List Call) (plan : linkResourceModel) : Response linkResourceModel :=
  let q1 := Call.SimpleServiceExists k.service plan.ServiceName.ValueString
  match c.SimpleServiceExists h k.service plan.ServiceName.ValueString with
  | (_, some err) =>
    { Diagnostics := [k.checkServiceError err], State := .untouched, calls := [q1] }
  | (exists_, none) =>
    if !exists_ then
      { Diagnostics := [Diagnostic.AddAttributeError "service_name".toList
                         ("Unable to find ".toList ++ k.title ++ " service".toList)
                         ("Unable to find ".toList ++ k.title ++ " service".toList)],
        State := .untouched, calls := [q1] }
    else
      let q2 := Call.SimpleServiceLinkExists k.service plan.ServiceName.ValueString
        plan.AppName.ValueString
      match c.SimpleServiceLinkExists (h ++ [q1]) k.service plan.ServiceName.ValueString
          plan.AppName.ValueString with
      | (_, some err) =>
        { Diagnostics := [k.checkLinkError err], State := .untouched, calls := [q1, q2] }
      | (linked, none) =>
        if linked then
          { Diagnostics := [Diagnostic.AddError "Service already linked to app".toList
                             "Service already linked to app".toList],
            State := .untouched, calls := [q1, q2] }
        else
          let args : List Str :=
            if !plan.Alias.IsNull then [] ++ [DoubleLineArg "alias".toList plan.Alias.ValueString]
            else []
          let mk := Call.SimpleServiceLinkCreate k.service plan.ServiceName.ValueString
            plan.AppName.ValueString args
          match c.SimpleServiceLinkCreate (h ++ [q1, q2]) k.service plan.ServiceName.ValueString
              plan.AppName.ValueString args with
          | some err =>
            { Diagnostics := [Diagnostic.AddError
                               ("Unable to create ".toList ++ k.title ++ " link".toList)
                               ("Unable to create ".toList ++ k.title ++ " link. ".toList ++ err)],
              State := .untouched, calls := [q1, q2, mk] }
          | none =>
            { Diagnostics := [], State := .set plan, calls := [q1, q2, mk] }

/-- The function `Update` of a link resource. -/
def linkResource.Update (_k : LinkKind) (_c : Remote) (_h : List Call)
    (_plan _state : linkResourceModel) : Response linkResourceModel :=
  { Diagnostics := [Diagnostic.AddError "Resource doesn't support Update".toList
                     "Resource doesn't support Update".toList],
    State := .untouched, calls := [] }

/-- The function `Delete` of a link resource. -/
def linkResource.Delete (k : LinkKind) (c : Remote) (h : List Call) (state : linkResourceModel) :
    Response linkResourceModel :=
  let q1 := Call.SimpleServiceExists k.service state.ServiceName.ValueString
  match c.SimpleServiceExists h k.service state.ServiceName.ValueString with
  | (_, some err) =>
    { Diagnostics := [k.checkServiceError err], State := .untouched, calls := [q1] }
  | (exists_, none) =>
    if !exists_ then
      { Diagnostics := [], State := .untouched, calls := [q1] }
    else
      let q2 := Call.SimpleServiceLinkExists k.service state.ServiceName.ValueString
        state.AppName.ValueString
      match c.SimpleServiceLinkExists (h ++ [q1]) k.service state.ServiceName.ValueString
          state.AppName.ValueString with
      | (_, some err) =>
        { Diagnostics := [k.checkLinkError err], State := .untouched, calls := [q1, q2] }
      | (linked, none) =>
        if !linked then
          { Diagnostics := [], State := .untouched, calls := [q1, q2] }
        else
          let rm := Call.SimpleServiceLinkRemove k.service state.ServiceName.ValueString
            state.AppName.ValueString
          match c.SimpleServiceLinkRemove (h ++ [q1, q2]) k.service
              state.ServiceName.ValueString state.AppName.ValueString with
          | some err =>
            { Diagnostics := [Diagnostic.AddError "Unable to unlink service from app".toList
                               ("Unable to unlink service from app. ".toList ++ err)],
              State := .untouched, calls := [q1, q2, rm] }
          | none =>
            { Diagnostics := [], State := .untouched, calls := [q1, q2, rm] }

/-- The function `ImportState` of a link resource: `resp.State` starts with
every attribute null and `SetAttribute` stores a known string. -/
def linkResource.ImportState (ID : Str) : Option (Response linkResourceModel) :=
  let parts := strings.Split ID ' '
  let s0 : linkResourceModel := { AppName := .null, ServiceName := .null, Alias := .null }
  match index parts 0 with
  | none => none
  | some p0 =>
    let s1 := { s0 with AppName := .known p0 }
    match index parts 1 with
    | none => none
    | some p1 =>
      let s2 := { s1 with ServiceName := .known p1 }
      if parts.length = 3 then
        match index parts 2 with
        | none => none
        | some p2 =>
          some { Diagnostics := [], State := .set { s2 with Alias := .known p2 }, calls := [] }
      else
        some { Diagnostics := [], State := .set s2, calls := [] }

/-- The type `mariaDBLinkResourceModel`. -/
abbrev mariaDBLinkResourceModel := linkResourceModel

/-- The type `natsLinkResourceModel`. -/
abbrev natsLinkResourceModel := linkResourceModel

/-- The function `mariaDBLinkResource.Read`. -/
def mariaDBLinkResource.Read := linkResource.Read mariadb

/-- The function `mariaDBLinkResource.Create`. -/
def mariaDBLinkResource.Create := linkResource.Create mariadb

/-- The function `mariaDBLinkResource.Update`. -/
def mariaDBLinkResource.Update := linkResource.Update mariadb

/-- The function `mariaDBLinkResource.Delete`. -/
def mariaDBLinkResource.Delete := linkResource.Delete mariadb

/-- The function `mariaDBLinkResource.ImportState`. -/
def mariaDBLinkResource.ImportState := linkResource.ImportState

/-- The function `natsLinkResource.Read`. -/
def natsLinkResource.Read := linkResource.Read nats

/-- The function `natsLinkResource.Create`. -/
def natsLinkResource.Create := linkResource.Create nats

/-- The function `natsLinkResource.Update`. -/
def natsLinkResource.Update := linkResource.Update nats

/-- The function `natsLinkResource.Delete`. -/
def natsLinkResource.Delete := linkResource.Delete nats

/-- The function `natsLinkResource.ImportState`. -/
def natsLinkResource.ImportState := linkResource.ImportState

/-! ## Report decoding, as the specification words it -/

/-- The key the domain Read looks for. -/
def vhostsKey : Str := "Domains app vhosts".toList

/-- The key of a report line as `domainResource.Read` computes it:
`strings.TrimSpace(strings.Split(line, ":")[0])`. -/
def reportKey (line : Str) : Option Str :=
  (index (strings.Split line ':') 0).map strings.TrimSpace

/-- The tokens of a list-typed report value in the specification's words: the
value is trimmed, then split on single spaces; the empty value has no token. -/
def reportTokens (value : Str) : List Str :=
  if strings.TrimSpace value = [] then [] else strings.Split (strings.TrimSpace value) ' '

/-! ## Concrete hosts -/

/-- A host on which every command succeeds printing `out`, every presence
extractor answers `present` and every mutation succeeds. -/
def Remote.steady (out : Str) (present : Bool) : Remote :=
  { run := fun _ _ => (out, [], none)
    LetsencryptIsEnabled := fun _ _ => (present, none)
    LetsencryptEnable := fun _ _ => none
    LetsencryptAddCronJob := fun _ => none
    LetsencryptDisable := fun _ _ => none
    SimpleServiceExists := fun _ _ _ => (true, none)
    SimpleServiceLinkExists := fun _ _ _ _ => (present, none)
    SimpleServiceLinkCreate := fun _ _ _ _ _ => none
    SimpleServiceLinkRemove := fun _ _ _ _ => none }

/-- The domain binding `(myapp, d)`. -/
def myappDomain (d : Str) : domainResourceModel :=
  { AppName := .known "myapp".toList, Domain := .known d }

/-- The text of the error a failing call returns on `Remote.failingOn`. -/
def exitStatus1 : Str := "Process exited with status 1".toList

/-- A host that fails exactly the calls selected by `bad` (a failing extractor
answers `(false, err)`) and otherwise behaves like `Remote.steady out present`. -/
def Remote.failingOn (bad : Call → Bool) (out : Str) (present : Bool) : Remote :=
  { run := fun _ cmd => if bad (.run cmd) then ([], exitStatus1, some exitStatus1)
      else (out, [], none)
    LetsencryptIsEnabled := fun _ a =>
      if bad (.LetsencryptIsEnabled a) then (false, some exitStatus1) else (present, none)
    LetsencryptEnable := fun _ a =>
      if bad (.LetsencryptEnable a) then some exitStatus1 else none
    LetsencryptAddCronJob := fun _ =>
      if bad .LetsencryptAddCronJob then some exitStatus1 else none
    LetsencryptDisable := fun _ a =>
      if bad (.LetsencryptDisable a) then some exitStatus1 else none
    SimpleServiceExists := fun _ s n =>
      if bad (.SimpleServiceExists s n) then (false, some exitStatus1) else (true, none)
    SimpleServiceLinkExists := fun _ s n a =>
      if bad (.SimpleServiceLinkExists s n a) then (false, some exitStatus1)
      else (present, none)
    SimpleServiceLinkCreate := fun _ s n a args =>
      if bad (.SimpleServiceLinkCreate s n a args) then some exitStatus1 else none
    SimpleServiceLinkRemove := fun _ s n a =>
      if bad (.SimpleServiceLinkRemove s n a) then some exitStatus1 else none }

/-- The report of an application bound to `example.com` and `other.com`. -/
def reportTwoDomains : Str := "Domains app vhosts: example.com other.com\n".toList

/-- A report whose vhosts value itself contains a colon. -/
def reportWithPort : Str := "Domains app vhosts: example.com:8080 other.com\n".toList

/-- The certificate lifecycle of `myapp`. -/
def myappCert : letsencryptResourceModel := { AppName := .known "myapp".toList }

/-- The link of `myapp` to the service `mydb`, without alias. -/
def myappLink : linkResourceModel :=
  { AppName := .known "myapp".toList, ServiceName := .known "mydb".toList, Alias := .null }

/-! ## The alias validators of the link schemas -/

/-- A bracket expression of a regular expression, as its inclusive character
ranges: `[A-Z_]` is the ranges `A`-`Z` and `_`-`_`. -/
structure regexp.CharClass where
  ranges : List (Char × Char)
deriving DecidableEq

/-- Membership of a character in a bracket expression. -/
def regexp.CharClass.mem (cls : regexp.CharClass) (c : Char) : Bool :=
  cls.ranges.any (fun r => decide (r.1.toNat ≤ c.toNat) && decide (c.toNat ≤ r.2.toNat))

/-- Go `regexp` matching of a pattern of the shape `^[...]*$`.  Without the
`m` flag `^` and `$` match only at the beginning and at the end of the text, so
the pattern matches exactly the texts all of whose characters are in the
bracket expression. -/
def regexp.MatchString (cls : regexp.CharClass) (s : Str) : Bool := s.all cls.mem

/-- The validator `stringvalidator.RegexMatches`: a null or unknown value is
not validated, a known value must match. -/
def stringvalidator.RegexMatches (cls : regexp.CharClass) : types.String → Bool
  | .known s => regexp.MatchString cls s
  | _ => true

/-- The `alias` validator of `mariaDBLinkResource.Schema`, pattern `^[A-Z_]*$`. -/
def mariaDBLinkResource.Schema.alias : types.String → Bool :=
  stringvalidator.RegexMatches { ranges := [('A', 'Z'), ('_', '_')] }

/-- The `alias` validator of `natsLinkResource.Schema`, pattern `^[A-Z]*$`. -/
def natsLinkResource.Schema.alias : types.String → Bool :=
  stringvalidator.RegexMatches { ranges := [('A', 'Z')] }

/-- An alias in the specification's words: a string consisting solely of
uppercase ASCII letters and underscores. -/
def isUppercaseUnderscore (s : Str) : Bool :=
  s.all (fun c => (decide (65 ≤ c.toNat) && decide (c.toNat ≤ 90)) || decide (c = '_'))

/-- Modelled from the spec: the function `DoubleLineArg` of package
`dokkuclient`, which is not among the translated files.  "Flag syntax separates
the flag name and value on separate tokens": the flag is the name after two
dashes, then a space, then the value. -/
def dokkuclient.DoubleLineArg (name value : Str) : Str :=
  "--".toList ++ name ++ " ".toList ++ value

/-! ## Failure propagation -/

/-- The Go `error` the remote returns for the call `k` when it is issued after
the calls `h`. -/
def Remote.errorOf (c : Remote) (h : List Call) : Call → Option Str
  | .run cmd => (c.run h cmd).2.2
  | .LetsencryptIsEnabled a => (c.LetsencryptIsEnabled h a).2
  | .LetsencryptEnable a => c.LetsencryptEnable h a
  | .LetsencryptAddCronJob => c.LetsencryptAddCronJob h
  | .LetsencryptDisable a => c.LetsencryptDisable h a
  | .SimpleServiceExists s n => (c.SimpleServiceExists h s n).2
  | .SimpleServiceLinkExists s n a => (c.SimpleServiceLinkExists h s n a).2
  | .SimpleServiceLinkCreate s n a args => c.SimpleServiceLinkCreate h s n a args
  | .SimpleServiceLinkRemove s n a => c.SimpleServiceLinkRemove h s n a

/-- How a sequence of calls went: every call succeeded; the last call failed
and all before it succeeded; or a call was issued after one had failed. -/
inductive CallsOutcome where
  | allSucceeded
  | lastFailed (err : Str)
  | continuedAfterFailure
deriving DecidableEq

/-- The outcome of the calls `ks` issued in order on `c` after the calls `h`. -/
def Remote.outcomeOf (c : Remote) : List Call → List Call → CallsOutcome
  | _, [] => .allSucceeded
  | h, k :: ks =>
    match c.errorOf h k with
    | some err => if ks.isEmpty then .lastFailed err else .continuedAfterFailure
    | none => Remote.outcomeOf c (h ++ [k]) ks

/-- No write to `resp.State`. -/
def StateWrite.isUntouched {M : Type} : StateWrite M → Bool
  | .untouched => true
  | _ => false

/-- A tuple was stored as the new state. -/
def StateWrite.isSet {M : Type} : StateWrite M → Bool
  | .set _ => true
  | _ => false

/-- The propagation policy on one response: no call was issued after a failed
one, and when the last call failed the response carries an error diagnostic
and no write to the state. -/
def Response.propagates {M : Type} (r : Response M) (c : Remote) (h : List Call) : Bool :=
  match c.outcomeOf h r.calls with
  | .allSucceeded => true
  | .lastFailed _ => HasError r.Diagnostics && r.State.isUntouched
  | .continuedAfterFailure => false

/-- A report whose only line is the key, without colon. -/
def reportBareKey : Str := "Domains app vhosts\n".toList

/-- The link of `myapp` to the service `mydb` with the empty alias `""`. -/
def myappLinkEmptyAlias : linkResourceModel :=
  { AppName := .known "myapp".toList, ServiceName := .known "mydb".toList, Alias := .known [] }

/-! ## Theorems -/

/-- `strings.Split` never returns the empty slice. -/
theorem Split_ne_nil (s : Str) (sep : Char) : strings.Split s sep ≠ [] := by
  induction s with
  | nil => simp [strings.Split]
  | cons c cs ih =>
    unfold strings.Split
    split
    · simp
    · split <;> simp

/-- A string without the separator is its own single piece. -/
theorem Split_of_not_mem {s : Str} {sep : Char} (hs : sep ∉ s) : strings.Split s sep = [s] := by
  induction s with
  | nil => simp [strings.Split]
  | cons c cs ih =>
    have hc : c ≠ sep := fun e => hs (by simp [e])
    have hcs : sep ∉ cs := fun e => hs (by simp [e])
    simp [strings.Split, hc, ih hcs]

/-- The first piece of `a ++ sep :: b`, when `a` has no separator, is `a`. -/
theorem Split_append_sep {a : Str} {sep : Char} (ha : sep ∉ a) (b : Str) :
    strings.Split (a ++ sep :: b) sep = a :: strings.Split b sep := by
  induction a with
  | nil => simp [strings.Split]
  | cons c cs ih =>
    have hc : c ≠ sep := fun e => ha (by simp [e])
    have hcs : sep ∉ cs := fun e => ha (by simp [e])
    simp [strings.Split, hc, ih hcs]

/-- The inner loop of Read finds the domain exactly when it is among the tokens. -/
theorem rangeDomains_eq_true_iff (d : Str) (l : List Str) :
    domainResource.Read.rangeDomains d l = true ↔ d ∈ l := by
  induction l with
  | nil => simp [domainResource.Read.rangeDomains]
  | cons x xs ih =>
    unfold domainResource.Read.rangeDomains
    by_cases hx : x = d
    · simp [hx]
    · have hx2 : ¬ d = x := fun e => hx e.symm
      simp [hx, hx2, ih]

/-- The outer loop of Read passes over lines that do not carry the key. -/
theorem rangeLines_skip (d : Str) (pre rest : List Str)
    (hpre : ∀ l ∈ pre, reportKey l ≠ some vhostsKey) :
    domainResource.Read.rangeLines d (pre ++ rest) = domainResource.Read.rangeLines d rest := by
  induction pre with
  | nil => rfl
  | cons l ls ih =>
    have hl := hpre l (by simp)
    have hls : ∀ l ∈ ls, reportKey l ≠ some vhostsKey := fun x hx => hpre x (by simp [hx])
    rw [List.cons_append, domainResource.Read.rangeLines]
    cases hp : strings.Split l ':' with
    | nil => exact absurd hp (Split_ne_nil _ _)
    | cons p0 ps =>
      have hk : strings.TrimSpace p0 ≠ vhostsKey := by
        simpa [reportKey, index, hp] using hl
      have hk2 : strings.TrimSpace p0 ≠ "Domains app vhosts".toList := hk
      simp only [hp, index, List.get?]
      rw [if_neg hk2]
      exact ih hls

/-- The outer loop of Read at a line `k:v` or `k:v:...` carrying the key: the
result is membership among the tokens of the segment `v`. -/
theorem rangeLines_key_line (d k v tail : Str) (post : List Str)
    (hk : ':' ∉ k) (hkey : strings.TrimSpace k = vhostsKey) (hv : ':' ∉ v)
    (htail : tail = [] ∨ ∃ t, tail = ':' :: t) :
    domainResource.Read.rangeLines d ((k ++ ':' :: (v ++ tail)) :: post) =
      some (decide (d ∈ reportTokens v)) := by
  have hsplit : ∃ ps, strings.Split (k ++ ':' :: (v ++ tail)) ':' = k :: v :: ps := by
    rw [Split_append_sep hk]
    rcases htail with rfl | ⟨t, rfl⟩
    · exact ⟨[], by simp [Split_of_not_mem hv]⟩
    · exact ⟨strings.Split t ':', by rw [Split_append_sep hv]⟩
  obtain ⟨ps, hps⟩ := hsplit
  have hkey2 : strings.TrimSpace k = "Domains app vhosts".toList := hkey
  rw [domainResource.Read.rangeLines]
  simp only [hps, index, List.get?, hkey2, if_true]
  unfold reportTokens
  by_cases he : strings.TrimSpace v = []
  · simp [he]
  · simp only [he, if_false, ne_eq, not_false_eq_true, if_true]
    congr 1
    rw [Bool.eq_iff_iff]
    simp [rangeDomains_eq_true_iff]


/-- Domain Read after a successful report, in terms of the result of the scan. -/
theorem Read_of_rangeLines (c : Remote) (h : List Call) (state : domainResourceModel)
    (stdout stderr : Str) (b : Bool)
    (hrun : c.run h ("domains:report ".toList ++ state.AppName.ValueString) =
      (stdout, stderr, none))
    (hscan : domainResource.Read.rangeLines state.Domain.ValueString
      (strings.Split (strings.TrimSuffix stdout "\n".toList) '\n') = some b) :
    domainResource.Read c h state =
      some (if b then
          { Diagnostics := [], State := .set state,
            calls := [.run ("domains:report ".toList ++ state.AppName.ValueString)] }
        else
          { Diagnostics := [Diagnostic.AddError "Domain not found".toList
                             "Domain not found".toList],
            State := .untouched,
            calls := [.run ("domains:report ".toList ++ state.AppName.ValueString)] }) := by
  unfold domainResource.Read
  simp only [hrun, hscan]
  cases b <;> rfl

/-- Domain Read after a successful report: it returns, has issued the report
query only, and succeeds or fails as the scan found the domain or not. -/
theorem Read_found_iff (c : Remote) (h : List Call) (state : domainResourceModel)
    (stdout stderr : Str) (b : Bool)
    (hrun : c.run h ("domains:report ".toList ++ state.AppName.ValueString) =
      (stdout, stderr, none))
    (hscan : domainResource.Read.rangeLines state.Domain.ValueString
      (strings.Split (strings.TrimSuffix stdout "\n".toList) '\n') = some b) :
    ∃ r, domainResource.Read c h state = some r ∧
      r.calls = [.run ("domains:report ".toList ++ state.AppName.ValueString)] ∧
      ((HasError r.Diagnostics = false ∧ r.State = .set state) ↔ b = true) ∧
      ((HasError r.Diagnostics = true ∧ r.State = .untouched) ↔ b = false) := by
  refine ⟨_, Read_of_rangeLines c h state stdout stderr b hrun hscan, ?_⟩
  cases b <;> simp [HasError]

/-- The scan of lines none of which carries the key finds nothing. -/
theorem rangeLines_no_key (d : Str) (lines : List Str)
    (hno : ∀ l ∈ lines, reportKey l ≠ some vhostsKey) :
    domainResource.Read.rangeLines d lines = some false := by
  have := rangeLines_skip d lines [] hno
  simpa [domainResource.Read.rangeLines] using this

/-- C1. Domain Read decodes the report by exact key and token membership.
Whenever `domains:report <app>` succeeds with the output `stdout`:
(1) if the first line carrying the key `Domains app vhosts` is `k:v` with `v`
free of colons, Read returns, and it ends without error and re-stores the state
tuple unchanged exactly when the stored domain is one of the single-space tokens
of the trimmed `v`;
(2) on `"Domains app vhosts: example.com other.com\n"` exactly the domains
`example.com` and `other.com` are found;
(3) on `"Domains app vhosts: \n"` no domain is found;
(4) when no line carries the key, Read records an error and stores no state. -/
theorem domain_Read_decodes_report (c : Remote) (h : List Call) (state : domainResourceModel)
    (stdout stderr : Str)
    (hrun : c.run h ("domains:report ".toList ++ state.AppName.ValueString) =
      (stdout, stderr, none)) :
    (∀ (pre post : List Str) (k v : Str),
      strings.Split (strings.TrimSuffix stdout "\n".toList) '\n' = pre ++ (k ++ ':' :: v) :: post →
      (∀ l ∈ pre, reportKey l ≠ some vhostsKey) →
      ':' ∉ k → strings.TrimSpace k = vhostsKey → ':' ∉ v →
      ∃ r, domainResource.Read c h state = some r ∧
        ((HasError r.Diagnostics = false ∧ r.State = .set state) ↔
          state.Domain.ValueString ∈ reportTokens v)) ∧
    (stdout = "Domains app vhosts: example.com other.com\n".toList →
      ∃ r, domainResource.Read c h state = some r ∧
        ((HasError r.Diagnostics = false ∧ r.State = .set state) ↔
          (state.Domain.ValueString = "example.com".toList ∨
            state.Domain.ValueString = "other.com".toList))) ∧
    (stdout = "Domains app vhosts: \n".toList →
      ∃ r, domainResource.Read c h state = some r ∧
        HasError r.Diagnostics = true ∧ r.State = .untouched) ∧
    ((∀ l ∈ strings.Split (strings.TrimSuffix stdout "\n".toList) '\n',
        reportKey l ≠ some vhostsKey) →
      ∃ r, domainResource.Read c h state = some r ∧
        HasError r.Diagnostics = true ∧ r.State = .untouched) := by
  refine ⟨?_, ?_, ?_, ?_⟩
  · intro pre post k v hlines hpre hk hkey hv
    have hscan : domainResource.Read.rangeLines state.Domain.ValueString
        (strings.Split (strings.TrimSuffix stdout "\n".toList) '\n') =
        some (decide (state.Domain.ValueString ∈ reportTokens v)) := by
      rw [hlines, rangeLines_skip _ _ _ hpre]
      have := rangeLines_key_line state.Domain.ValueString k v [] post hk hkey hv (Or.inl rfl)
      simpa using this
    obtain ⟨r, hr, _, hok, _⟩ := Read_found_iff c h state stdout stderr _ hrun hscan
    exact ⟨r, hr, by simpa using hok⟩
  · intro hout
    have hscan : domainResource.Read.rangeLines state.Domain.ValueString
        (strings.Split (strings.TrimSuffix stdout "\n".toList) '\n') =
        some (decide (state.Domain.ValueString ∈
          reportTokens " example.com other.com".toList)) := by
      have hl : strings.Split (strings.TrimSuffix stdout "\n".toList) '\n' =
          [vhostsKey ++ ':' :: (" example.com other.com".toList ++ [])] := by
        rw [hout]; decide
      rw [hl]
      exact rangeLines_key_line _ _ _ [] [] (by decide) (by decide) (by decide) (Or.inl rfl)
    have htok : reportTokens " example.com other.com".toList =
        ["example.com".toList, "other.com".toList] := by decide
    obtain ⟨r, hr, _, hok, _⟩ := Read_found_iff c h state stdout stderr _ hrun hscan
    refine ⟨r, hr, hok.trans ?_⟩
    rw [htok]
    simp
  · intro hout
    have hscan : domainResource.Read.rangeLines state.Domain.ValueString
        (strings.Split (strings.TrimSuffix stdout "\n".toList) '\n') =
        some (decide (state.Domain.ValueString ∈ reportTokens " ".toList)) := by
      have hl : strings.Split (strings.TrimSuffix stdout "\n".toList) '\n' =
          [vhostsKey ++ ':' :: (" ".toList ++ [])] := by
        rw [hout]; decide
      rw [hl]
      exact rangeLines_key_line _ _ _ [] [] (by decide) (by decide) (by decide) (Or.inl rfl)
    have htok : reportTokens " ".toList = [] := by decide
    rw [htok] at hscan
    obtain ⟨r, hr, _, _, herr⟩ := Read_found_iff c h state stdout stderr _ hrun hscan
    exact ⟨r, hr, herr.mpr (by simp)⟩
  · intro hno
    have hscan := rangeLines_no_key state.Domain.ValueString _ hno
    obtain ⟨r, hr, _, _, herr⟩ := Read_found_iff c h state stdout stderr _ hrun hscan
    exact ⟨r, hr, herr.mpr rfl⟩

/-- C1 at a concrete input: the stored domain `other.com` read against the
report of an application bound to `example.com` and `other.com`. -/
theorem domain_Read_decodes_report_witness :
    ∃ r, domainResource.Read (Remote.steady reportTwoDomains true) []
        (myappDomain "other.com".toList) = some r ∧
      ((HasError r.Diagnostics = false ∧ r.State = .set (myappDomain "other.com".toList)) ↔
        (myappDomain "other.com".toList).Domain.ValueString ∈
          reportTokens " example.com other.com".toList) :=
  (domain_Read_decodes_report (Remote.steady reportTwoDomains true) []
    (myappDomain "other.com".toList) reportTwoDomains [] rfl).1
    [] [] vhostsKey " example.com other.com".toList (by decide) (by simp) (by decide)
    (by decide) (by decide)

/-- C2 fails as stated.  On the report line
`Domains app vhosts: example.com:8080 other.com` the tokens of the whole trimmed
value are `example.com:8080` and `other.com`; a stored domain equal to either is
reported "Domain not found", while `example.com`, which is not a token of the
whole value, is found. -/
theorem domain_Read_whole_value_counterexample :
    "other.com".toList ∈ reportTokens " example.com:8080 other.com".toList ∧
    "example.com:8080".toList ∈ reportTokens " example.com:8080 other.com".toList ∧
    domainResource.Read (Remote.steady reportWithPort true) []
        (myappDomain "other.com".toList) =
      some { Diagnostics := [Diagnostic.AddError "Domain not found".toList
                              "Domain not found".toList],
             State := .untouched, calls := [.run "domains:report myapp".toList] } ∧
    domainResource.Read (Remote.steady reportWithPort true) []
        (myappDomain "example.com:8080".toList) =
      some { Diagnostics := [Diagnostic.AddError "Domain not found".toList
                              "Domain not found".toList],
             State := .untouched, calls := [.run "domains:report myapp".toList] } ∧
    "example.com".toList ∉ reportTokens " example.com:8080 other.com".toList ∧
    domainResource.Read (Remote.steady reportWithPort true) []
        (myappDomain "example.com".toList) =
      some { Diagnostics := [], State := .set (myappDomain "example.com".toList),
             calls := [.run "domains:report myapp".toList] } := by
  refine ⟨by decide, by decide, by decide, by decide, by decide, by decide⟩

/-- C2, amended.  A report line is split on every colon and the value is the
text between the first colon and the second (or the end of the line when there
is no second colon): if the first line carrying the key is `k:v` followed by
nothing or by `:` and further text, with `v` free of colons, Read ends without
error re-storing the state exactly when the stored domain is a single-space
token of the trimmed `v`, and ends with an error and no state otherwise. -/
theorem domain_Read_value_between_colons (c : Remote) (h : List Call)
    (state : domainResourceModel) (stdout stderr : Str) (pre post : List Str) (k v tail : Str)
    (hrun : c.run h ("domains:report ".toList ++ state.AppName.ValueString) =
      (stdout, stderr, none))
    (hlines : strings.Split (strings.TrimSuffix stdout "\n".toList) '\n' =
      pre ++ (k ++ ':' :: (v ++ tail)) :: post)
    (hpre : ∀ l ∈ pre, reportKey l ≠ some vhostsKey)
    (hk : ':' ∉ k) (hkey : strings.TrimSpace k = vhostsKey) (hv : ':' ∉ v)
    (htail : tail = [] ∨ ∃ t, tail = ':' :: t) :
    ∃ r, domainResource.Read c h state = some r ∧
      ((HasError r.Diagnostics = false ∧ r.State = .set state) ↔
        state.Domain.ValueString ∈ reportTokens v) ∧
      ((HasError r.Diagnostics = true ∧ r.State = .untouched) ↔
        state.Domain.ValueString ∉ reportTokens v) := by
  have hscan : domainResource.Read.rangeLines state.Domain.ValueString
      (strings.Split (strings.TrimSuffix stdout "\n".toList) '\n') =
      some (decide (state.Domain.ValueString ∈ reportTokens v)) := by
    rw [hlines, rangeLines_skip _ _ _ hpre]
    exact rangeLines_key_line state.Domain.ValueString k v tail post hk hkey hv htail
  obtain ⟨r, hr, _, hok, herr⟩ := Read_found_iff c h state stdout stderr _ hrun hscan
  exact ⟨r, hr, by simpa using hok, by simpa using herr⟩

/-- C2 amended, at a concrete input: on
`Domains app vhosts: example.com:8080 other.com` the value is ` example.com`. -/
theorem domain_Read_value_between_colons_witness :
    ∃ r, domainResource.Read (Remote.steady reportWithPort true) []
        (myappDomain "example.com".toList) = some r ∧
      ((HasError r.Diagnostics = false ∧ r.State = .set (myappDomain "example.com".toList)) ↔
        (myappDomain "example.com".toList).Domain.ValueString ∈
          reportTokens " example.com".toList) ∧
      ((HasError r.Diagnostics = true ∧ r.State = .untouched) ↔
        (myappDomain "example.com".toList).Domain.ValueString ∉
          reportTokens " example.com".toList) :=
  domain_Read_value_between_colons (Remote.steady reportWithPort true) []
    (myappDomain "example.com".toList) reportWithPort [] [] [] vhostsKey
    " example.com".toList ":8080 other.com".toList rfl (by decide) (by simp) (by decide)
    (by decide) (by decide) (Or.inr ⟨"8080 other.com".toList, by decide⟩)

/-- C3, the code at the failing input.  The report succeeds and lists
`example.com other.com`; the stored domain `gone.com` is absent.  Read records
the error "Domain not found" and leaves `resp.State` untouched; and no run of
domain Read ever removes the resource from state. -/
theorem domain_Read_absent_records_error :
    domainResource.Read (Remote.steady reportTwoDomains true) []
        (myappDomain "gone.com".toList) =
      some { Diagnostics := [Diagnostic.AddError "Domain not found".toList
                              "Domain not found".toList],
             State := .untouched, calls := [.run "domains:report myapp".toList] } ∧
    (∀ (c : Remote) (h : List Call) (state : domainResourceModel)
        (r : Response domainResourceModel),
      domainResource.Read c h state = some r → r.State ≠ .removed) := by
  refine ⟨by decide, ?_⟩
  intro c h state r hr
  rcases hrun : c.run h ("domains:report ".toList ++ state.AppName.ValueString)
    with ⟨out, e, _ | err⟩
  · rcases hscan : domainResource.Read.rangeLines state.Domain.ValueString
      (strings.Split (strings.TrimSuffix out "\n".toList) '\n') with _ | b
    · unfold domainResource.Read at hr
      simp only [hrun, hscan] at hr
      exact absurd hr (by simp)
    · rw [Read_of_rangeLines c h state out e b hrun hscan] at hr
      injection hr with hr
      subst hr
      cases b <;> simp
  · unfold domainResource.Read at hr
    simp only [hrun] at hr
    injection hr with hr
    subst hr
    simp

/-- C4. Certificate and service-link Read classify the presence fact three ways.
For letsencrypt Read on `LetsencryptIsEnabled`, and for link Read on
`SimpleServiceLinkExists` once `SimpleServiceExists` answered true: the answer
false without error removes the resource, records no error and does not re-store
the state; the answer true re-stores exactly the prior state tuple; an error
records an error and neither removes nor re-stores the state.  No call issued by
Read is a mutation.  (`mariaDBLinkResource.Read` and `natsLinkResource.Read` are
`linkResource.Read` at `mariadb` and `nats`.) -/
theorem Read_classifies_presence (c : Remote) (h : List Call) :
    (∀ state : letsencryptResourceModel,
      (c.LetsencryptIsEnabled h state.AppName.ValueString = (false, none) →
        letsencryptResource.Read c h state =
          { Diagnostics := [], State := .removed,
            calls := [.LetsencryptIsEnabled state.AppName.ValueString] }) ∧
      (c.LetsencryptIsEnabled h state.AppName.ValueString = (true, none) →
        letsencryptResource.Read c h state =
          { Diagnostics := [], State := .set state,
            calls := [.LetsencryptIsEnabled state.AppName.ValueString] }) ∧
      (∀ b err, c.LetsencryptIsEnabled h state.AppName.ValueString = (b, some err) →
        HasError (letsencryptResource.Read c h state).Diagnostics = true ∧
        (letsencryptResource.Read c h state).State = .untouched) ∧
      (∀ call ∈ (letsencryptResource.Read c h state).calls, call.isMutation = false)) ∧
    (∀ (k : LinkKind) (state : linkResourceModel),
      (c.SimpleServiceExists h k.service state.ServiceName.ValueString = (true, none) →
        (c.SimpleServiceLinkExists
            (h ++ [.SimpleServiceExists k.service state.ServiceName.ValueString])
            k.service state.ServiceName.ValueString state.AppName.ValueString = (false, none) →
          linkResource.Read k c h state =
            { Diagnostics := [], State := .removed,
              calls := [.SimpleServiceExists k.service state.ServiceName.ValueString,
                        .SimpleServiceLinkExists k.service state.ServiceName.ValueString
                          state.AppName.ValueString] }) ∧
        (c.SimpleServiceLinkExists
            (h ++ [.SimpleServiceExists k.service state.ServiceName.ValueString])
            k.service state.ServiceName.ValueString state.AppName.ValueString = (true, none) →
          linkResource.Read k c h state =
            { Diagnostics := [], State := .set state,
              calls := [.SimpleServiceExists k.service state.ServiceName.ValueString,
                        .SimpleServiceLinkExists k.service state.ServiceName.ValueString
                          state.AppName.ValueString] }) ∧
        (∀ b err, c.SimpleServiceLinkExists
            (h ++ [.SimpleServiceExists k.service state.ServiceName.ValueString])
            k.service state.ServiceName.ValueString state.AppName.ValueString = (b, some err) →
          HasError (linkResource.Read k c h state).Diagnostics = true ∧
          (linkResource.Read k c h state).State = .untouched)) ∧
      (∀ call ∈ (linkResource.Read k c h state).calls, call.isMutation = false)) := by
  refine ⟨fun state => ⟨?_, ?_, ?_, ?_⟩, fun k state => ⟨fun hs => ⟨?_, ?_, ?_⟩, ?_⟩⟩
  · intro hq
    simp [letsencryptResource.Read, hq]
  · intro hq
    simp [letsencryptResource.Read, hq]
  · intro b err hq
    simp [letsencryptResource.Read, hq, HasError]
  · intro call hcall
    unfold letsencryptResource.Read at hcall
    rcases hq : c.LetsencryptIsEnabled h state.AppName.ValueString with ⟨b, _ | err⟩ <;>
      cases b <;> simp [hq] at hcall <;> subst hcall <;> rfl
  · intro hq
    simp [linkResource.Read, hs, hq]
  · intro hq
    simp [linkResource.Read, hs, hq]
  · intro b err hq
    simp [linkResource.Read, hs, hq, HasError]
  · intro call hcall
    unfold linkResource.Read at hcall
    rcases hs : c.SimpleServiceExists h k.service state.ServiceName.ValueString
      with ⟨b, _ | err⟩ <;> cases b <;> simp [hs] at hcall
    · subst hcall; rfl
    · rcases hq : c.SimpleServiceLinkExists
          (h ++ [.SimpleServiceExists k.service state.ServiceName.ValueString])
          k.service state.ServiceName.ValueString state.AppName.ValueString
        with ⟨b, _ | err⟩ <;> cases b <;> simp [hq] at hcall <;>
        rcases hcall with rfl | rfl <;> rfl
    · subst hcall; rfl
    · subst hcall; rfl

/-- C4 at a concrete input: letsencrypt Read on a host where letsencrypt is
not enabled for `myapp`. -/
theorem Read_classifies_presence_witness :
    letsencryptResource.Read (Remote.steady [] false) [] myappCert =
      { Diagnostics := [], State := .removed,
        calls := [.LetsencryptIsEnabled myappCert.AppName.ValueString] } :=
  ((Read_classifies_presence (Remote.steady [] false) []).1 myappCert).1 rfl

/-- C5. Create on an entity that is already present fails and performs no
mutation.  If `LetsencryptIsEnabled` answers true, letsencrypt Create records
the error "Letsencrypt already enabled for app", issues only that query and
stores no state.  If `SimpleServiceLinkExists` answers true, link Create (for
every link kind) records an error, stores no state and issues no mutation call;
when the service was found, the error is "Service already linked to app" and the
calls are exactly the two queries. -/
theorem Create_present_issues_no_mutation (c : Remote) (h : List Call) :
    (∀ plan : letsencryptResourceModel,
      c.LetsencryptIsEnabled h plan.AppName.ValueString = (true, none) →
      letsencryptResource.Create c h plan =
        { Diagnostics := [Diagnostic.AddError "Letsencrypt already enabled for app".toList
                           "Letsencrypt already enabled for app".toList],
          State := .untouched,
          calls := [.LetsencryptIsEnabled plan.AppName.ValueString] }) ∧
    (∀ (k : LinkKind) (DoubleLineArg : Str → Str → Str) (plan : linkResourceModel),
      c.SimpleServiceLinkExists
          (h ++ [.SimpleServiceExists k.service plan.ServiceName.ValueString])
          k.service plan.ServiceName.ValueString plan.AppName.ValueString = (true, none) →
      HasError (linkResource.Create k DoubleLineArg c h plan).Diagnostics = true ∧
      (linkResource.Create k DoubleLineArg c h plan).State = .untouched ∧
      (∀ call ∈ (linkResource.Create k DoubleLineArg c h plan).calls,
        call.isMutation = false) ∧
      (c.SimpleServiceExists h k.service plan.ServiceName.ValueString = (true, none) →
        linkResource.Create k DoubleLineArg c h plan =
          { Diagnostics := [Diagnostic.AddError "Service already linked to app".toList
                             "Service already linked to app".toList],
            State := .untouched,
            calls := [.SimpleServiceExists k.service plan.ServiceName.ValueString,
                      .SimpleServiceLinkExists k.service plan.ServiceName.ValueString
                        plan.AppName.ValueString] })) := by
  refine ⟨fun plan hq => ?_, fun k D plan hq => ?_⟩
  · simp [letsencryptResource.Create, hq]
  · rcases hs : c.SimpleServiceExists h k.service plan.ServiceName.ValueString
      with ⟨b, _ | err⟩ <;> cases b <;>
      simp [linkResource.Create, hs, hq, HasError, Call.isMutation]

/-- C5 at a concrete input: letsencrypt Create on a host where letsencrypt is
already enabled for `myapp`. -/
theorem Create_present_issues_no_mutation_witness :
    letsencryptResource.Create (Remote.steady [] true) [] myappCert =
      { Diagnostics := [Diagnostic.AddError "Letsencrypt already enabled for app".toList
                         "Letsencrypt already enabled for app".toList],
        State := .untouched,
        calls := [.LetsencryptIsEnabled myappCert.AppName.ValueString] } :=
  (Create_present_issues_no_mutation (Remote.steady [] true) []).1 myappCert rfl

/-- C6, the code at the failing input.  On a host whose report lists
`example.com` (Read finds it), Create of `(myapp, example.com)` issues
`domains:add myapp example.com` as its only call, with no `domains:report`
before it, and succeeds instead of failing with "already exists"; on the same
host `gone.com` is absent (Read reports it not found), and Delete of
`(myapp, gone.com)` issues `domains:remove myapp gone.com`.  The letsencrypt
and link Create and Delete query the presence extractor before their mutation;
the domain ones do not. -/
theorem domain_mutations_skip_guard :
    domainResource.Read (Remote.steady reportTwoDomains true) []
        (myappDomain "example.com".toList) =
      some { Diagnostics := [], State := .set (myappDomain "example.com".toList),
             calls := [.run "domains:report myapp".toList] } ∧
    domainResource.Create (Remote.steady reportTwoDomains true) []
        (myappDomain "example.com".toList) =
      { Diagnostics := [], State := .set (myappDomain "example.com".toList),
        calls := [.run "domains:add myapp example.com".toList] } ∧
    domainResource.Read (Remote.steady reportTwoDomains true) []
        (myappDomain "gone.com".toList) =
      some { Diagnostics := [Diagnostic.AddError "Domain not found".toList
                              "Domain not found".toList],
             State := .untouched, calls := [.run "domains:report myapp".toList] } ∧
    domainResource.Delete (Remote.steady reportTwoDomains true) []
        (myappDomain "gone.com".toList) =
      { Diagnostics := [], State := .untouched,
        calls := [.run "domains:remove myapp gone.com".toList] } := by
  refine ⟨by decide, by decide, by decide, by decide⟩

/-- What the domain operations send, on every channel (the extent of the
defect of C6): domain Create issues exactly one call,
`domains:add <app> <domain>`; domain Delete issues exactly one call,
`domains:remove <app> <domain>`; every call of domain Update is a mutation; so
none of them queries `domains:report` first.  Create stores the plan and
records nothing when its command succeeds, and records "Unable to create
domain" with the channel's error text, storing no state, when it fails; Delete
records no error when its command succeeds and "Unable to delete domain" with
the error text when it fails. -/
theorem domain_mutations_sent_unguarded (c : Remote) (h : List Call)
    (plan state : domainResourceModel) :
    (domainResource.Create c h plan).calls =
      [.run ("domains:add ".toList ++ plan.AppName.ValueString ++ " ".toList ++
        plan.Domain.ValueString)] ∧
    (domainResource.Delete c h state).calls =
      [.run ("domains:remove ".toList ++ state.AppName.ValueString ++ " ".toList ++
        state.Domain.ValueString)] ∧
    (∀ call ∈ (domainResource.Update c h plan state).calls, call.isMutation = true) ∧
    ((c.run h ("domains:add ".toList ++ plan.AppName.ValueString ++ " ".toList ++
          plan.Domain.ValueString)).2.2 = none →
      (domainResource.Create c h plan).Diagnostics = [] ∧
      (domainResource.Create c h plan).State = .set plan) ∧
    (∀ err, (c.run h ("domains:add ".toList ++ plan.AppName.ValueString ++ " ".toList ++
          plan.Domain.ValueString)).2.2 = some err →
      (domainResource.Create c h plan).Diagnostics =
        [Diagnostic.AddError "Unable to create domain".toList
          ("Unable to create domain. ".toList ++ err)] ∧
      (domainResource.Create c h plan).State = .untouched) ∧
    ((c.run h ("domains:remove ".toList ++ state.AppName.ValueString ++ " ".toList ++
          state.Domain.ValueString)).2.2 = none →
      (domainResource.Delete c h state).Diagnostics = []) ∧
    (∀ err, (c.run h ("domains:remove ".toList ++ state.AppName.ValueString ++ " ".toList ++
          state.Domain.ValueString)).2.2 = some err →
      (domainResource.Delete c h state).Diagnostics =
        [Diagnostic.AddError "Unable to delete domain".toList
          ("Unable to delete domain. ".toList ++ err)]) := by
  have hrm : ∀ x : Str, Call.isMutation (.run ("domains:remove ".toList ++ x)) = true :=
    fun x => rfl
  have hadd : ∀ x : Str, Call.isMutation (.run ("domains:add ".toList ++ x)) = true :=
    fun x => rfl
  refine ⟨?_, ?_, ?_, ?_, ?_, ?_, ?_⟩
  · rcases hr : c.run h ("domains:add ".toList ++ plan.AppName.ValueString ++ " ".toList ++
      plan.Domain.ValueString) with ⟨o, e, _ | err⟩ <;>
      simp only [domainResource.Create, hr]
  · rcases hr : c.run h ("domains:remove ".toList ++ state.AppName.ValueString ++
      " ".toList ++ state.Domain.ValueString) with ⟨o, e, _ | err⟩ <;>
      simp only [domainResource.Delete, hr]
  · intro call hcall
    unfold domainResource.Update at hcall
    split_ifs at hcall with h1 h2
    · simp at hcall
    · have hA := hrm (state.AppName.ValueString ++ " ".toList ++ state.Domain.ValueString)
      have hB := hadd (plan.AppName.ValueString ++ " ".toList ++ plan.Domain.ValueString)
      simp only [← List.append_assoc] at hA hB
      rcases hr1 : c.run h ("domains:remove ".toList ++ state.AppName.ValueString ++
        " ".toList ++ state.Domain.ValueString) with ⟨o, e, _ | err⟩
      · rcases hr2 : c.run (h ++ [.run ("domains:remove ".toList ++
            state.AppName.ValueString ++ " ".toList ++ state.Domain.ValueString)])
            ("domains:add ".toList ++ plan.AppName.ValueString ++ " ".toList ++
              plan.Domain.ValueString) with ⟨o2, e2, _ | err2⟩ <;>
          simp only [hr1, hr2, List.mem_cons, List.mem_singleton, List.not_mem_nil,
            or_false] at hcall <;>
          rcases hcall with rfl | rfl <;> assumption
      · simp only [hr1, List.mem_singleton] at hcall
        subst hcall
        exact hA
    · simp at hcall
  · intro hok
    rcases hr : c.run h ("domains:add ".toList ++ plan.AppName.ValueString ++ " ".toList ++
      plan.Domain.ValueString) with ⟨o, e, _ | err⟩
    · simp only [domainResource.Create, hr, and_self]
    · rw [hr] at hok; exact absurd hok (by simp)
  · intro err herr
    rcases hr : c.run h ("domains:add ".toList ++ plan.AppName.ValueString ++ " ".toList ++
      plan.Domain.ValueString) with ⟨o, e, _ | err2⟩
    · rw [hr] at herr; exact absurd herr (by simp)
    · rw [hr] at herr
      have : err2 = err := by simpa using herr
      subst this
      simp only [domainResource.Create, hr, and_self]
  · intro hok
    rcases hr : c.run h ("domains:remove ".toList ++ state.AppName.ValueString ++
      " ".toList ++ state.Domain.ValueString) with ⟨o, e, _ | err⟩
    · simp only [domainResource.Delete, hr]
    · rw [hr] at hok; exact absurd hok (by simp)
  · intro err herr
    rcases hr : c.run h ("domains:remove ".toList ++ state.AppName.ValueString ++
      " ".toList ++ state.Domain.ValueString) with ⟨o, e, _ | err2⟩
    · rw [hr] at herr; exact absurd herr (by simp)
    · rw [hr] at herr
      have : err2 = err := by simpa using herr
      subst this
      simp only [domainResource.Delete, hr]

/-- The unguarded domain Create at a concrete input: Create of
`(myapp, example.com)` on a host where every command succeeds. -/
theorem domain_mutations_sent_unguarded_witness :
    (domainResource.Create (Remote.steady reportTwoDomains true) []
        (myappDomain "example.com".toList)).Diagnostics = [] ∧
    (domainResource.Create (Remote.steady reportTwoDomains true) []
        (myappDomain "example.com".toList)).State = .set (myappDomain "example.com".toList) :=
  (domain_mutations_sent_unguarded (Remote.steady reportTwoDomains true) []
    (myappDomain "example.com".toList) (myappDomain "example.com".toList)).2.2.2.1 rfl

/-- C7. An Update that changes an identity field is rejected before anything is
sent.  Domain Update with a plan whose application name differs from the stored
one records the attribute error "Unable to change app name", issues no call and
stores no state; letsencrypt Update and link Update (every link kind) record an
error, issue no call and store no state for every plan and state, in particular
when the application name or the service name differs.  Domain Update with
desired app_name `"b"` against stored app_name `"a"` is rejected so. -/
theorem Update_identity_change_rejected (c : Remote) (h : List Call) :
    (∀ plan state : domainResourceModel,
      plan.AppName.ValueString ≠ state.AppName.ValueString →
      domainResource.Update c h plan state =
        { Diagnostics := [Diagnostic.AddAttributeError "app_name".toList
                           "Unable to change app name".toList
                           "Unable to change app name".toList],
          State := .untouched, calls := [] }) ∧
    (∀ plan state : letsencryptResourceModel,
      HasError (letsencryptResource.Update c h plan state).Diagnostics = true ∧
      (letsencryptResource.Update c h plan state).calls = [] ∧
      (letsencryptResource.Update c h plan state).State = .untouched) ∧
    (∀ (k : LinkKind) (plan state : linkResourceModel),
      HasError (linkResource.Update k c h plan state).Diagnostics = true ∧
      (linkResource.Update k c h plan state).calls = [] ∧
      (linkResource.Update k c h plan state).State = .untouched) ∧
    (∀ d d1 : types.String,
      HasError (domainResource.Update c h { AppName := .known "b".toList, Domain := d }
        { AppName := .known "a".toList, Domain := d1 }).Diagnostics = true ∧
      (domainResource.Update c h { AppName := .known "b".toList, Domain := d }
        { AppName := .known "a".toList, Domain := d1 }).calls = [] ∧
      (domainResource.Update c h { AppName := .known "b".toList, Domain := d }
        { AppName := .known "a".toList, Domain := d1 }).State = .untouched) := by
  have hdom : ∀ plan state : domainResourceModel,
      plan.AppName.ValueString ≠ state.AppName.ValueString →
      domainResource.Update c h plan state =
        { Diagnostics := [Diagnostic.AddAttributeError "app_name".toList
                           "Unable to change app name".toList
                           "Unable to change app name".toList],
          State := .untouched, calls := [] } := by
    intro plan state hne
    unfold domainResource.Update
    rw [if_pos hne]
  refine ⟨hdom, fun _ _ => ⟨rfl, rfl, rfl⟩, fun _ _ _ => ⟨rfl, rfl, rfl⟩, fun d d1 => ?_⟩
  have hne : "b".toList ≠ "a".toList := by decide
  rw [hdom { AppName := .known "b".toList, Domain := d }
    { AppName := .known "a".toList, Domain := d1 } hne]
  exact ⟨rfl, rfl, rfl⟩

/-- C7 at a concrete input: domain Update with desired app_name `"b"` against
stored app_name `"a"`. -/
theorem Update_identity_change_rejected_witness :
    domainResource.Update (Remote.steady [] true) []
        { AppName := .known "b".toList, Domain := .known "example.com".toList }
        { AppName := .known "a".toList, Domain := .known "example.com".toList } =
      { Diagnostics := [Diagnostic.AddAttributeError "app_name".toList
                         "Unable to change app name".toList
                         "Unable to change app name".toList],
        State := .untouched, calls := [] } :=
  (Update_identity_change_rejected (Remote.steady [] true) []).1 _ _ (by decide)

/-- C8. Domain Update is a two-step move without rollback.  For a plan with the
stored application name and a different domain: if `domains:remove <app> <old>`
fails, Update records an error, stores no state and has issued that call only;
if it succeeds, `domains:add <app> <new>` is issued next, and when that fails
Update records an error, stores no state and the calls are exactly remove then
add (the old domain is not re-added), and when it succeeds the plan is stored
and the calls are exactly remove then add.  The plan is stored as the new state
exactly when both commands succeed. -/
theorem domain_Update_two_step (c : Remote) (h : List Call) (plan state : domainResourceModel)
    (happ : plan.AppName.ValueString = state.AppName.ValueString)
    (hdom : plan.Domain.ValueString ≠ state.Domain.ValueString) :
    (∀ err, (c.run h ("domains:remove ".toList ++ state.AppName.ValueString ++ " ".toList ++
          state.Domain.ValueString)).2.2 = some err →
      domainResource.Update c h plan state =
        { Diagnostics := [Diagnostic.AddError "Unable to create domains".toList
                           ("Unable to create domains. ".toList ++ err)],
          State := .untouched,
          calls := [.run ("domains:remove ".toList ++ state.AppName.ValueString ++
            " ".toList ++ state.Domain.ValueString)] }) ∧
    ((c.run h ("domains:remove ".toList ++ state.AppName.ValueString ++ " ".toList ++
          state.Domain.ValueString)).2.2 = none →
      (∀ err, (c.run (h ++ [.run ("domains:remove ".toList ++ state.AppName.ValueString ++
            " ".toList ++ state.Domain.ValueString)])
          ("domains:add ".toList ++ state.AppName.ValueString ++ " ".toList ++
            plan.Domain.ValueString)).2.2 = some err →
        domainResource.Update c h plan state =
          { Diagnostics := [Diagnostic.AddError "Unable to create domain".toList
                             ("Unable to create domain. ".toList ++ err)],
            State := .untouched,
            calls := [.run ("domains:remove ".toList ++ state.AppName.ValueString ++
                        " ".toList ++ state.Domain.ValueString),
                      .run ("domains:add ".toList ++ state.AppName.ValueString ++
                        " ".toList ++ plan.Domain.ValueString)] }) ∧
      ((c.run (h ++ [.run ("domains:remove ".toList ++ state.AppName.ValueString ++
            " ".toList ++ state.Domain.ValueString)])
          ("domains:add ".toList ++ state.AppName.ValueString ++ " ".toList ++
            plan.Domain.ValueString)).2.2 = none →
        domainResource.Update c h plan state =
          { Diagnostics := [], State := .set plan,
            calls := [.run ("domains:remove ".toList ++ state.AppName.ValueString ++
                        " ".toList ++ state.Domain.ValueString),
                      .run ("domains:add ".toList ++ state.AppName.ValueString ++
                        " ".toList ++ plan.Domain.ValueString)] })) ∧
    ((domainResource.Update c h plan state).State = .set plan ↔
      ((c.run h ("domains:remove ".toList ++ state.AppName.ValueString ++ " ".toList ++
          state.Domain.ValueString)).2.2 = none ∧
       (c.run (h ++ [.run ("domains:remove ".toList ++ state.AppName.ValueString ++
            " ".toList ++ state.Domain.ValueString)])
          ("domains:add ".toList ++ state.AppName.ValueString ++ " ".toList ++
            plan.Domain.ValueString)).2.2 = none)) := by
  have happ2 : ¬ plan.AppName.ValueString ≠ state.AppName.ValueString := not_not.mpr happ
  obtain ⟨o, e, r1, hr1⟩ : ∃ o e r1, c.run h ("domains:remove ".toList ++
      state.AppName.ValueString ++ " ".toList ++ state.Domain.ValueString) = (o, e, r1) :=
    ⟨_, _, _, rfl⟩
  obtain ⟨o2, e2, r2, hr2⟩ : ∃ o2 e2 r2, c.run (h ++ [.run ("domains:remove ".toList ++
      state.AppName.ValueString ++ " ".toList ++ state.Domain.ValueString)])
      ("domains:add ".toList ++ state.AppName.ValueString ++ " ".toList ++
        plan.Domain.ValueString) = (o2, e2, r2) := ⟨_, _, _, rfl⟩
  rw [hr1, hr2]
  cases r1 with
  | some err1 =>
    have hU : domainResource.Update c h plan state =
        { Diagnostics := [Diagnostic.AddError "Unable to create domains".toList
                           ("Unable to create domains. ".toList ++ err1)],
          State := .untouched,
          calls := [.run ("domains:remove ".toList ++ state.AppName.ValueString ++
            " ".toList ++ state.Domain.ValueString)] } := by
      unfold domainResource.Update
      rw [if_neg happ2, if_pos hdom]
      simp only [hr1]
    refine ⟨fun err he => ?_, fun he => absurd he (by simp), ?_⟩
    · have : err1 = err := by simpa using he
      subst this
      exact hU
    · rw [hU]
      simp
  | none =>
    cases r2 with
    | some err2 =>
      have hU : domainResource.Update c h plan state =
          { Diagnostics := [Diagnostic.AddError "Unable to create domain".toList
                             ("Unable to create domain. ".toList ++ err2)],
            State := .untouched,
            calls := [.run ("domains:remove ".toList ++ state.AppName.ValueString ++
                        " ".toList ++ state.Domain.ValueString),
                      .run ("domains:add ".toList ++ state.AppName.ValueString ++
                        " ".toList ++ plan.Domain.ValueString)] } := by
        unfold domainResource.Update
        rw [if_neg happ2, if_pos hdom]
        simp only [happ, hr1, hr2]
      refine ⟨fun err he => absurd he (by simp), fun _ => ⟨fun err he => ?_,
        fun he => absurd he (by simp)⟩, ?_⟩
      · have : err2 = err := by simpa using he
        subst this
        exact hU
      · rw [hU]
        simp
    | none =>
      have hU : domainResource.Update c h plan state =
          { Diagnostics := [], State := .set plan,
            calls := [.run ("domains:remove ".toList ++ state.AppName.ValueString ++
                        " ".toList ++ state.Domain.ValueString),
                      .run ("domains:add ".toList ++ state.AppName.ValueString ++
                        " ".toList ++ plan.Domain.ValueString)] } := by
        unfold domainResource.Update
        rw [if_neg happ2, if_pos hdom]
        simp only [happ, hr1, hr2]
      refine ⟨fun err he => absurd he (by simp), fun _ => ⟨fun err he => absurd he (by simp),
        fun _ => hU⟩, ?_⟩
      rw [hU]
      simp

/-- C8 at a concrete input: a host on which `domains:remove` succeeds and
`domains:add myapp new.com` fails. -/
theorem domain_Update_two_step_witness :
    domainResource.Update
        (Remote.failingOn (fun k => decide (k = .run "domains:add myapp new.com".toList))
          [] true)
        [] (myappDomain "new.com".toList) (myappDomain "example.com".toList) =
      { Diagnostics := [Diagnostic.AddError "Unable to create domain".toList
                         ("Unable to create domain. ".toList ++ exitStatus1)],
        State := .untouched,
        calls := [.run ("domains:remove ".toList ++
                    (myappDomain "example.com".toList).AppName.ValueString ++ " ".toList ++
                    (myappDomain "example.com".toList).Domain.ValueString),
                  .run ("domains:add ".toList ++
                    (myappDomain "example.com".toList).AppName.ValueString ++ " ".toList ++
                    (myappDomain "new.com".toList).Domain.ValueString)] } :=
  ((domain_Update_two_step
      (Remote.failingOn (fun k => decide (k = .run "domains:add myapp new.com".toList))
        [] true)
      [] (myappDomain "new.com".toList) (myappDomain "example.com".toList) rfl
      (by decide)).2.1 (by decide)).1 exitStatus1 (by decide)

/-- C9. Delete of an already-absent entity is a successful no-op, but an
extractor failure is a hard error.  Letsencrypt Delete: `LetsencryptIsEnabled`
answering false without error gives no error and no further call; an error
gives an error diagnostic and no further call.  Link Delete (every link kind):
the same for `SimpleServiceExists` and, once the service is found, for
`SimpleServiceLinkExists`.  The mutations among the calls are exactly the one
`LetsencryptDisable` / `SimpleServiceLinkRemove` when presence was confirmed,
and none otherwise. -/
theorem Delete_absent_is_noop (c : Remote) (h : List Call) :
    (∀ state : letsencryptResourceModel,
      (c.LetsencryptIsEnabled h state.AppName.ValueString = (false, none) →
        letsencryptResource.Delete c h state =
          { Diagnostics := [], State := .untouched,
            calls := [.LetsencryptIsEnabled state.AppName.ValueString] }) ∧
      (∀ b err, c.LetsencryptIsEnabled h state.AppName.ValueString = (b, some err) →
        HasError (letsencryptResource.Delete c h state).Diagnostics = true ∧
        (letsencryptResource.Delete c h state).calls =
          [.LetsencryptIsEnabled state.AppName.ValueString]) ∧
      (letsencryptResource.Delete c h state).calls.filter Call.isMutation =
        (if c.LetsencryptIsEnabled h state.AppName.ValueString = (true, none)
          then [.LetsencryptDisable state.AppName.ValueString] else [])) ∧
    (∀ (k : LinkKind) (state : linkResourceModel),
      (c.SimpleServiceExists h k.service state.ServiceName.ValueString = (false, none) →
        linkResource.Delete k c h state =
          { Diagnostics := [], State := .untouched,
            calls := [.SimpleServiceExists k.service state.ServiceName.ValueString] }) ∧
      (∀ b err,
        c.SimpleServiceExists h k.service state.ServiceName.ValueString = (b, some err) →
        HasError (linkResource.Delete k c h state).Diagnostics = true ∧
        (linkResource.Delete k c h state).calls =
          [.SimpleServiceExists k.service state.ServiceName.ValueString]) ∧
      (c.SimpleServiceExists h k.service state.ServiceName.ValueString = (true, none) →
        (c.SimpleServiceLinkExists
            (h ++ [.SimpleServiceExists k.service state.ServiceName.ValueString])
            k.service state.ServiceName.ValueString state.AppName.ValueString = (false, none) →
          linkResource.Delete k c h state =
            { Diagnostics := [], State := .untouched,
              calls := [.SimpleServiceExists k.service state.ServiceName.ValueString,
                        .SimpleServiceLinkExists k.service state.ServiceName.ValueString
                          state.AppName.ValueString] }) ∧
        (∀ b err, c.SimpleServiceLinkExists
            (h ++ [.SimpleServiceExists k.service state.ServiceName.ValueString])
            k.service state.ServiceName.ValueString state.AppName.ValueString = (b, some err) →
          HasError (linkResource.Delete k c h state).Diagnostics = true ∧
          (linkResource.Delete k c h state).calls =
            [.SimpleServiceExists k.service state.ServiceName.ValueString,
             .SimpleServiceLinkExists k.service state.ServiceName.ValueString
               state.AppName.ValueString])) ∧
      (linkResource.Delete k c h state).calls.filter Call.isMutation =
        (if c.SimpleServiceExists h k.service state.ServiceName.ValueString = (true, none) ∧
            c.SimpleServiceLinkExists
              (h ++ [.SimpleServiceExists k.service state.ServiceName.ValueString])
              k.service state.ServiceName.ValueString state.AppName.ValueString = (true, none)
          then [.SimpleServiceLinkRemove k.service state.ServiceName.ValueString
                  state.AppName.ValueString]
          else [])) := by
  refine ⟨fun state => ⟨?_, ?_, ?_⟩, fun k state => ⟨?_, ?_, fun hs => ⟨?_, ?_⟩, ?_⟩⟩
  · intro hq
    simp [letsencryptResource.Delete, hq]
  · intro b err hq
    simp [letsencryptResource.Delete, hq, HasError]
  · obtain ⟨b, r, hq⟩ : ∃ b r, c.LetsencryptIsEnabled h state.AppName.ValueString = (b, r) :=
      ⟨_, _, rfl⟩
    cases r with
    | some err => simp [letsencryptResource.Delete, hq, Call.isMutation]
    | none =>
      cases b with
      | false => simp [letsencryptResource.Delete, hq, Call.isMutation]
      | true =>
        cases hd : c.LetsencryptDisable
            (h ++ [.LetsencryptIsEnabled state.AppName.ValueString])
            state.AppName.ValueString <;>
          simp [letsencryptResource.Delete, hq, hd, Call.isMutation]
  · intro hs
    simp [linkResource.Delete, hs]
  · intro b err hs
    simp [linkResource.Delete, hs, HasError]
  · intro hq
    simp [linkResource.Delete, hs, hq]
  · intro b err hq
    simp [linkResource.Delete, hs, hq, HasError]
  · obtain ⟨b, r, hs⟩ : ∃ b r,
        c.SimpleServiceExists h k.service state.ServiceName.ValueString = (b, r) :=
      ⟨_, _, rfl⟩
    cases r with
    | some err => simp [linkResource.Delete, hs, Call.isMutation]
    | none =>
      cases b with
      | false => simp [linkResource.Delete, hs, Call.isMutation]
      | true =>
        obtain ⟨b2, r2, hq⟩ : ∃ b2 r2, c.SimpleServiceLinkExists
            (h ++ [.SimpleServiceExists k.service state.ServiceName.ValueString])
            k.service state.ServiceName.ValueString state.AppName.ValueString = (b2, r2) :=
          ⟨_, _, rfl⟩
        cases r2 with
        | some err => simp [linkResource.Delete, hs, hq, Call.isMutation]
        | none =>
          cases b2 with
          | false => simp [linkResource.Delete, hs, hq, Call.isMutation]
          | true =>
            cases hd : c.SimpleServiceLinkRemove
                (h ++ [.SimpleServiceExists k.service state.ServiceName.ValueString,
                       .SimpleServiceLinkExists k.service state.ServiceName.ValueString
                         state.AppName.ValueString])
                k.service state.ServiceName.ValueString state.AppName.ValueString <;>
              simp [linkResource.Delete, hs, hq, hd, Call.isMutation]

/-- C9 at a concrete input: mariadb link Delete on a host where the service
exists and is not linked to `myapp`. -/
theorem Delete_absent_is_noop_witness :
    linkResource.Delete mariadb (Remote.steady [] false) [] myappLink =
      { Diagnostics := [], State := .untouched,
        calls := [.SimpleServiceExists mariadb.service myappLink.ServiceName.ValueString,
                  .SimpleServiceLinkExists mariadb.service myappLink.ServiceName.ValueString
                    myappLink.AppName.ValueString] } :=
  (((Delete_absent_is_noop (Remote.steady [] false) []).2 mariadb myappLink).2.2.1 rfl).1 rfl

/-- C10. Import is a pure split of the identifier on single spaces.  For an
identifier of two space-free fields `a k`, domain Import sets app_name `a` and
domain `k`, and link Import (mariadb and nats) sets app_name `a` and
service_name `k` and leaves the alias null; for three space-free fields `a k A`
link Import also sets alias `A`; no call is issued.  `"myapp example.com"` gives
`(myapp, example.com)` with no alias and `"myapp mydb ALIAS_URL"` gives
`(myapp, mydb)` with alias `ALIAS_URL`. -/
theorem Import_splits_identifier :
    (∀ a k : Str, ' ' ∉ a → ' ' ∉ k →
      domainResource.ImportState (a ++ ' ' :: k) =
        some { Diagnostics := [], State := .set { AppName := .known a, Domain := .known k },
               calls := [] } ∧
      mariaDBLinkResource.ImportState (a ++ ' ' :: k) =
        some { Diagnostics := [],
               State := .set { AppName := .known a, ServiceName := .known k, Alias := .null },
               calls := [] } ∧
      natsLinkResource.ImportState (a ++ ' ' :: k) =
        some { Diagnostics := [],
               State := .set { AppName := .known a, ServiceName := .known k, Alias := .null },
               calls := [] }) ∧
    (∀ a k A : Str, ' ' ∉ a → ' ' ∉ k → ' ' ∉ A →
      mariaDBLinkResource.ImportState (a ++ ' ' :: (k ++ ' ' :: A)) =
        some { Diagnostics := [],
               State := .set { AppName := .known a, ServiceName := .known k,
                               Alias := .known A },
               calls := [] } ∧
      natsLinkResource.ImportState (a ++ ' ' :: (k ++ ' ' :: A)) =
        some { Diagnostics := [],
               State := .set { AppName := .known a, ServiceName := .known k,
                               Alias := .known A },
               calls := [] }) ∧
    domainResource.ImportState "myapp example.com".toList =
      some { Diagnostics := [],
             State := .set { AppName := .known "myapp".toList,
                             Domain := .known "example.com".toList },
             calls := [] } ∧
    mariaDBLinkResource.ImportState "myapp example.com".toList =
      some { Diagnostics := [],
             State := .set { AppName := .known "myapp".toList,
                             ServiceName := .known "example.com".toList,
                             Alias := .null },
             calls := [] } ∧
    mariaDBLinkResource.ImportState "myapp mydb ALIAS_URL".toList =
      some { Diagnostics := [],
             State := .set { AppName := .known "myapp".toList,
                             ServiceName := .known "mydb".toList,
                             Alias := .known "ALIAS_URL".toList },
             calls := [] } := by
  refine ⟨fun a k ha hk => ?_, fun a k A ha hk hA => ?_, by decide, by decide, by decide⟩
  · have hsplit : strings.Split (a ++ ' ' :: k) ' ' = [a, k] := by
      rw [Split_append_sep ha, Split_of_not_mem hk]
    refine ⟨?_, ?_, ?_⟩
    · simp [domainResource.ImportState, hsplit, index]
    · simp [mariaDBLinkResource.ImportState, linkResource.ImportState, hsplit, index]
    · simp [natsLinkResource.ImportState, linkResource.ImportState, hsplit, index]
  · have hsplit : strings.Split (a ++ ' ' :: (k ++ ' ' :: A)) ' ' = [a, k, A] := by
      rw [Split_append_sep ha, Split_append_sep hk, Split_of_not_mem hA]
    refine ⟨?_, ?_⟩
    · simp [mariaDBLinkResource.ImportState, linkResource.ImportState, hsplit, index]
    · simp [natsLinkResource.ImportState, linkResource.ImportState, hsplit, index]

/-- C10 at a concrete input: nats link Import of `myapp mydb A_B`. -/
theorem Import_splits_identifier_witness :
    natsLinkResource.ImportState ("myapp".toList ++ ' ' :: ("mydb".toList ++ ' ' :: "A_B".toList)) =
      some { Diagnostics := [],
             State := .set { AppName := .known "myapp".toList,
                             ServiceName := .known "mydb".toList,
                             Alias := .known "A_B".toList },
             calls := [] } :=
  (Import_splits_identifier.2.1 "myapp".toList "mydb".toList "A_B".toList
    (by decide) (by decide) (by decide)).2

/-- C11 fails as stated.  The empty alias `""` is accepted by the alias
validator of the mariadb link and by that of the nats link, it is not null, and
link Create on a plan carrying it, when the service exists and is not yet
linked, passes to `SimpleServiceLinkCreate` the one flag built from `"alias"`
and the empty value. -/
theorem link_Create_empty_alias_counterexample :
    mariaDBLinkResource.Schema.alias myappLinkEmptyAlias.Alias = true ∧
    natsLinkResource.Schema.alias myappLinkEmptyAlias.Alias = true ∧
    myappLinkEmptyAlias.Alias.ValueString = [] ∧
    (mariaDBLinkResource.Create dokkuclient.DoubleLineArg (Remote.steady [] false) []
        myappLinkEmptyAlias).calls =
      [.SimpleServiceExists "mariadb".toList "mydb".toList,
       .SimpleServiceLinkExists "mariadb".toList "mydb".toList "myapp".toList,
       .SimpleServiceLinkCreate "mariadb".toList "mydb".toList "myapp".toList
         [dokkuclient.DoubleLineArg "alias".toList []]] ∧
    (natsLinkResource.Create dokkuclient.DoubleLineArg (Remote.steady [] false) []
        myappLinkEmptyAlias).calls =
      [.SimpleServiceExists "nats".toList "mydb".toList,
       .SimpleServiceLinkExists "nats".toList "mydb".toList "myapp".toList,
       .SimpleServiceLinkCreate "nats".toList "mydb".toList "myapp".toList
         [dokkuclient.DoubleLineArg "alias".toList []]] := by
  refine ⟨by decide, by decide, by decide, by decide, by decide⟩

/-- C11, amended.  The optional alias is appended to the link-create mutation
exactly when it is not null: for every link kind and every plan that reaches the
mutation (the service exists and is not yet linked), the calls are the two
queries and then `SimpleServiceLinkCreate`, whose extra-argument list is empty
when the alias is null and is exactly the one flag built from the name `"alias"`
and the plan's alias value when it is not null.  The flag of a known alias
carries an empty value exactly when that alias is the empty string, which both
alias validators accept. -/
theorem link_Create_alias_argument (k : LinkKind) (DoubleLineArg : Str → Str → Str)
    (c : Remote) (h : List Call) (plan : linkResourceModel)
    (hs : c.SimpleServiceExists h k.service plan.ServiceName.ValueString = (true, none))
    (hl : c.SimpleServiceLinkExists
        (h ++ [.SimpleServiceExists k.service plan.ServiceName.ValueString])
        k.service plan.ServiceName.ValueString plan.AppName.ValueString = (false, none)) :
    (plan.Alias.IsNull = true →
      (linkResource.Create k DoubleLineArg c h plan).calls =
        [.SimpleServiceExists k.service plan.ServiceName.ValueString,
         .SimpleServiceLinkExists k.service plan.ServiceName.ValueString
           plan.AppName.ValueString,
         .SimpleServiceLinkCreate k.service plan.ServiceName.ValueString
           plan.AppName.ValueString []]) ∧
    (plan.Alias.IsNull = false →
      (linkResource.Create k DoubleLineArg c h plan).calls =
        [.SimpleServiceExists k.service plan.ServiceName.ValueString,
         .SimpleServiceLinkExists k.service plan.ServiceName.ValueString
           plan.AppName.ValueString,
         .SimpleServiceLinkCreate k.service plan.ServiceName.ValueString
           plan.AppName.ValueString
           [DoubleLineArg "alias".toList plan.Alias.ValueString]]) ∧
    (∀ s, plan.Alias = .known s → (plan.Alias.ValueString = [] ↔ s = [])) ∧
    mariaDBLinkResource.Schema.alias (.known []) = true ∧
    natsLinkResource.Schema.alias (.known []) = true := by
  refine ⟨fun hn => ?_, fun hn => ?_, fun s hs2 => ?_, rfl, rfl⟩
  · simp only [linkResource.Create, hs, hl, hn, Bool.not_true, Bool.not_false,
      Bool.false_eq_true, if_false, if_true, List.nil_append]
    split <;> rfl
  · simp only [linkResource.Create, hs, hl, hn, Bool.not_true, Bool.not_false,
      Bool.false_eq_true, if_false, if_true, List.nil_append]
    split <;> rfl
  · rw [hs2]
    rfl

/-- C11 amended, at a concrete input: mariadb link Create of `myapp` to `mydb`
without alias on a host where the service exists and is not yet linked. -/
theorem link_Create_alias_argument_witness :
    (linkResource.Create mariadb dokkuclient.DoubleLineArg (Remote.steady [] false) []
        myappLink).calls =
      [.SimpleServiceExists mariadb.service myappLink.ServiceName.ValueString,
       .SimpleServiceLinkExists mariadb.service myappLink.ServiceName.ValueString
         myappLink.AppName.ValueString,
       .SimpleServiceLinkCreate mariadb.service myappLink.ServiceName.ValueString
         myappLink.AppName.ValueString []] :=
  (link_Create_alias_argument mariadb dokkuclient.DoubleLineArg (Remote.steady [] false) []
    myappLink rfl rfl).1 rfl

/-- Letsencrypt Read follows the propagation policy. -/
theorem letsencrypt_Read_propagates (c : Remote) (h : List Call)
    (state : letsencryptResourceModel) :
    (letsencryptResource.Read c h state).propagates c h = true := by
  obtain ⟨b, r, hq⟩ : ∃ b r, c.LetsencryptIsEnabled h state.AppName.ValueString = (b, r) :=
    ⟨_, _, rfl⟩
  cases r <;> cases b <;>
    simp [letsencryptResource.Read, hq, Response.propagates, Remote.outcomeOf,
      Remote.errorOf, HasError, StateWrite.isUntouched]

/-- Letsencrypt Create follows the propagation policy. -/
theorem letsencrypt_Create_propagates (c : Remote) (h : List Call)
    (plan : letsencryptResourceModel) :
    (letsencryptResource.Create c h plan).propagates c h = true := by
  obtain ⟨b, r, hq⟩ : ∃ b r, c.LetsencryptIsEnabled h plan.AppName.ValueString = (b, r) :=
    ⟨_, _, rfl⟩
  cases r with
  | some err =>
    simp [letsencryptResource.Create, hq, Response.propagates, Remote.outcomeOf,
      Remote.errorOf, HasError, StateWrite.isUntouched]
  | none =>
    cases b with
    | true =>
      simp [letsencryptResource.Create, hq, Response.propagates, Remote.outcomeOf,
        Remote.errorOf, HasError, StateWrite.isUntouched]
    | false =>
      cases he : c.LetsencryptEnable (h ++ [.LetsencryptIsEnabled plan.AppName.ValueString])
          plan.AppName.ValueString with
      | some err =>
        simp [letsencryptResource.Create, hq, he, Response.propagates, Remote.outcomeOf,
          Remote.errorOf, HasError, StateWrite.isUntouched]
      | none =>
        cases hj : c.LetsencryptAddCronJob
            (h ++ [.LetsencryptIsEnabled plan.AppName.ValueString,
                   .LetsencryptEnable plan.AppName.ValueString]) <;>
          simp [letsencryptResource.Create, hq, he, hj, Response.propagates,
            Remote.outcomeOf, Remote.errorOf, HasError, StateWrite.isUntouched]

/-- Letsencrypt Delete follows the propagation policy. -/
theorem letsencrypt_Delete_propagates (c : Remote) (h : List Call)
    (state : letsencryptResourceModel) :
    (letsencryptResource.Delete c h state).propagates c h = true := by
  obtain ⟨b, r, hq⟩ : ∃ b r, c.LetsencryptIsEnabled h state.AppName.ValueString = (b, r) :=
    ⟨_, _, rfl⟩
  cases r with
  | some err =>
    simp [letsencryptResource.Delete, hq, Response.propagates, Remote.outcomeOf,
      Remote.errorOf, HasError, StateWrite.isUntouched]
  | none =>
    cases b with
    | false =>
      simp [letsencryptResource.Delete, hq, Response.propagates, Remote.outcomeOf,
        Remote.errorOf, HasError, StateWrite.isUntouched]
    | true =>
      cases hd : c.LetsencryptDisable (h ++ [.LetsencryptIsEnabled state.AppName.ValueString])
          state.AppName.ValueString <;>
        simp [letsencryptResource.Delete, hq, hd, Response.propagates, Remote.outcomeOf,
          Remote.errorOf, HasError, StateWrite.isUntouched]

/-- Link Read follows the propagation policy. -/
theorem link_Read_propagates (k : LinkKind) (c : Remote) (h : List Call)
    (state : linkResourceModel) :
    (linkResource.Read k c h state).propagates c h = true := by
  obtain ⟨b, r, hs⟩ : ∃ b r,
      c.SimpleServiceExists h k.service state.ServiceName.ValueString = (b, r) := ⟨_, _, rfl⟩
  cases r with
  | some err =>
    simp [linkResource.Read, hs, Response.propagates, Remote.outcomeOf, Remote.errorOf,
      HasError, StateWrite.isUntouched, LinkKind.checkServiceError]
  | none =>
    cases b with
    | false =>
      simp [linkResource.Read, hs, Response.propagates, Remote.outcomeOf, Remote.errorOf,
        HasError, StateWrite.isUntouched]
    | true =>
      obtain ⟨b2, r2, hq⟩ : ∃ b2 r2, c.SimpleServiceLinkExists
          (h ++ [.SimpleServiceExists k.service state.ServiceName.ValueString])
          k.service state.ServiceName.ValueString state.AppName.ValueString = (b2, r2) :=
        ⟨_, _, rfl⟩
      cases r2 <;> cases b2 <;>
        simp [linkResource.Read, hs, hq, Response.propagates, Remote.outcomeOf,
          Remote.errorOf, HasError, StateWrite.isUntouched, LinkKind.checkLinkError]

/-- Link Delete follows the propagation policy. -/
theorem link_Delete_propagates (k : LinkKind) (c : Remote) (h : List Call)
    (state : linkResourceModel) :
    (linkResource.Delete k c h state).propagates c h = true := by
  obtain ⟨b, r, hs⟩ : ∃ b r,
      c.SimpleServiceExists h k.service state.ServiceName.ValueString = (b, r) := ⟨_, _, rfl⟩
  cases r with
  | some err =>
    simp [linkResource.Delete, hs, Response.propagates, Remote.outcomeOf, Remote.errorOf,
      HasError, StateWrite.isUntouched, LinkKind.checkServiceError]
  | none =>
    cases b with
    | false =>
      simp [linkResource.Delete, hs, Response.propagates, Remote.outcomeOf, Remote.errorOf,
        HasError, StateWrite.isUntouched]
    | true =>
      obtain ⟨b2, r2, hq⟩ : ∃ b2 r2, c.SimpleServiceLinkExists
          (h ++ [.SimpleServiceExists k.service state.ServiceName.ValueString])
          k.service state.ServiceName.ValueString state.AppName.ValueString = (b2, r2) :=
        ⟨_, _, rfl⟩
      cases r2 with
      | some err =>
        simp [linkResource.Delete, hs, hq, Response.propagates, Remote.outcomeOf,
          Remote.errorOf, HasError, StateWrite.isUntouched, LinkKind.checkLinkError]
      | none =>
        cases b2 with
        | false =>
          simp [linkResource.Delete, hs, hq, Response.propagates, Remote.outcomeOf,
            Remote.errorOf, HasError, StateWrite.isUntouched]
        | true =>
          cases hd : c.SimpleServiceLinkRemove
              (h ++ [.SimpleServiceExists k.service state.ServiceName.ValueString,
                     .SimpleServiceLinkExists k.service state.ServiceName.ValueString
                       state.AppName.ValueString])
              k.service state.ServiceName.ValueString state.AppName.ValueString <;>
            simp [linkResource.Delete, hs, hq, hd, Response.propagates, Remote.outcomeOf,
              Remote.errorOf, HasError, StateWrite.isUntouched]

/-- Link Create follows the propagation policy. -/
theorem link_Create_propagates (k : LinkKind) (DoubleLineArg : Str → Str → Str) (c : Remote)
    (h : List Call) (plan : linkResourceModel) :
    (linkResource.Create k DoubleLineArg c h plan).propagates c h = true := by
  obtain ⟨b, r, hs⟩ : ∃ b r,
      c.SimpleServiceExists h k.service plan.ServiceName.ValueString = (b, r) := ⟨_, _, rfl⟩
  cases r with
  | some err =>
    simp [linkResource.Create, hs, Response.propagates, Remote.outcomeOf, Remote.errorOf,
      HasError, StateWrite.isUntouched, LinkKind.checkServiceError]
  | none =>
    cases b with
    | false =>
      simp [linkResource.Create, hs, Response.propagates, Remote.outcomeOf, Remote.errorOf,
        HasError, StateWrite.isUntouched]
    | true =>
      obtain ⟨b2, r2, hq⟩ : ∃ b2 r2, c.SimpleServiceLinkExists
          (h ++ [.SimpleServiceExists k.service plan.ServiceName.ValueString])
          k.service plan.ServiceName.ValueString plan.AppName.ValueString = (b2, r2) :=
        ⟨_, _, rfl⟩
      cases r2 with
      | some err =>
        simp [linkResource.Create, hs, hq, Response.propagates, Remote.outcomeOf,
          Remote.errorOf, HasError, StateWrite.isUntouched, LinkKind.checkLinkError]
      | none =>
        cases b2 with
        | true =>
          simp [linkResource.Create, hs, hq, Response.propagates, Remote.outcomeOf,
            Remote.errorOf, HasError, StateWrite.isUntouched]
        | false =>
          cases hn : plan.Alias.IsNull with
          | true =>
            cases hc : c.SimpleServiceLinkCreate
                (h ++ [.SimpleServiceExists k.service plan.ServiceName.ValueString,
                       .SimpleServiceLinkExists k.service plan.ServiceName.ValueString
                         plan.AppName.ValueString])
                k.service plan.ServiceName.ValueString plan.AppName.ValueString [] <;>
              simp [-String.toList, linkResource.Create, hs, hq, hn, hc, Response.propagates,
                Remote.outcomeOf, Remote.errorOf, HasError, StateWrite.isUntouched]
          | false =>
            cases hc : c.SimpleServiceLinkCreate
                (h ++ [.SimpleServiceExists k.service plan.ServiceName.ValueString,
                       .SimpleServiceLinkExists k.service plan.ServiceName.ValueString
                         plan.AppName.ValueString])
                k.service plan.ServiceName.ValueString plan.AppName.ValueString
                [DoubleLineArg "alias".toList plan.Alias.ValueString] <;>
              simp [-String.toList, linkResource.Create, hs, hq, hn, hc, Response.propagates,
                Remote.outcomeOf, Remote.errorOf, HasError, StateWrite.isUntouched]

/-- Domain Read follows the propagation policy whenever it returns. -/
theorem domain_Read_propagates (c : Remote) (h : List Call) (state : domainResourceModel)
    (r : Response domainResourceModel) (hr : domainResource.Read c h state = some r) :
    r.propagates c h = true := by
  simp only [domainResource.Read] at hr
  generalize "domains:report ".toList ++ state.AppName.ValueString = cmd at hr
  obtain ⟨o, e, r1, hrun⟩ : ∃ o e r1, c.run h cmd = (o, e, r1) := ⟨_, _, _, rfl⟩
  rw [hrun] at hr
  cases r1 with
  | some err =>
    simp only [Option.some.injEq] at hr
    subst hr
    simp [hrun, Response.propagates, Remote.outcomeOf, Remote.errorOf, HasError,
      StateWrite.isUntouched]
  | none =>
    simp only at hr
    split at hr
    · exact absurd hr (by simp)
    · simp only [Option.some.injEq] at hr
      subst hr
      simp [hrun, Response.propagates, Remote.outcomeOf, Remote.errorOf, HasError,
        StateWrite.isUntouched]
    · simp only [Option.some.injEq] at hr
      subst hr
      simp [hrun, Response.propagates, Remote.outcomeOf, Remote.errorOf, HasError,
        StateWrite.isUntouched]

/-- Domain Create follows the propagation policy. -/
theorem domain_Create_propagates (c : Remote) (h : List Call) (plan : domainResourceModel) :
    (domainResource.Create c h plan).propagates c h = true := by
  simp only [domainResource.Create]
  generalize "domains:add ".toList ++ plan.AppName.ValueString ++ " ".toList ++
    plan.Domain.ValueString = cmd
  obtain ⟨o, e, r1, hrun⟩ : ∃ o e r1, c.run h cmd = (o, e, r1) := ⟨_, _, _, rfl⟩
  cases r1 <;>
    simp [hrun, Response.propagates, Remote.outcomeOf, Remote.errorOf, HasError,
      StateWrite.isUntouched]

/-- Domain Delete follows the propagation policy. -/
theorem domain_Delete_propagates (c : Remote) (h : List Call) (state : domainResourceModel) :
    (domainResource.Delete c h state).propagates c h = true := by
  simp only [domainResource.Delete]
  generalize "domains:remove ".toList ++ state.AppName.ValueString ++ " ".toList ++
    state.Domain.ValueString = cmd
  obtain ⟨o, e, r1, hrun⟩ : ∃ o e r1, c.run h cmd = (o, e, r1) := ⟨_, _, _, rfl⟩
  cases r1 <;>
    simp [hrun, Response.propagates, Remote.outcomeOf, Remote.errorOf, HasError,
      StateWrite.isUntouched]

/-- Domain Update follows the propagation policy. -/
theorem domain_Update_propagates (c : Remote) (h : List Call)
    (plan state : domainResourceModel) :
    (domainResource.Update c h plan state).propagates c h = true := by
  simp only [domainResource.Update]
  generalize "domains:remove ".toList ++ state.AppName.ValueString ++ " ".toList ++
    state.Domain.ValueString = rm
  generalize "domains:add ".toList ++ plan.AppName.ValueString ++ " ".toList ++
    plan.Domain.ValueString = add
  split_ifs with h1 h2
  · simp [Response.propagates, Remote.outcomeOf]
  · obtain ⟨o, e, r1, hr1⟩ : ∃ o e r1, c.run h rm = (o, e, r1) := ⟨_, _, _, rfl⟩
    cases r1 with
    | some err =>
      simp [hr1, Response.propagates, Remote.outcomeOf, Remote.errorOf, HasError,
        StateWrite.isUntouched]
    | none =>
      obtain ⟨o2, e2, r2, hr2⟩ : ∃ o2 e2 r2, c.run (h ++ [.run rm]) add = (o2, e2, r2) :=
        ⟨_, _, _, rfl⟩
      cases r2 <;>
        simp [hr1, hr2, Response.propagates, Remote.outcomeOf, Remote.errorOf, HasError,
          StateWrite.isUntouched]
  · simp [Response.propagates, Remote.outcomeOf]

/-- A response that follows the propagation policy and stores a state comes
from a run in which every issued call succeeded. -/
theorem outcome_of_stored_state (c : Remote) (h : List Call) (M : Type) (r : Response M)
    (hp : r.propagates c h = true) (hset : r.State.isSet = true) :
    c.outcomeOf h r.calls = .allSucceeded := by
  unfold Response.propagates at hp
  cases ho : c.outcomeOf h r.calls with
  | allSucceeded => rfl
  | lastFailed err =>
    rw [ho] at hp
    simp only [Bool.and_eq_true] at hp
    cases hst : r.State <;> rw [hst] at hp hset <;>
      simp [StateWrite.isUntouched, StateWrite.isSet] at hp hset
  | continuedAfterFailure =>
    rw [ho] at hp
    exact absurd hp (by simp)

/-- C12. Every failure aborts the operation at once and yields no state.  For
every operation of every kind (domain Read when it returns, domain Create,
Update and Delete; letsencrypt and link Read, Create, Update and Delete) the
response follows the propagation policy: no call is issued after a call that
returned an error, and when the last call returned an error the response
carries an error diagnostic and no write to the state.  Hence state is stored
only on a run in which every issued call succeeded.  In particular, when
letsencrypt Create's renewal-job call fails after a successful enable, the
diagnostic is "Unable to add letsencrypt cronjob" with the error text (its
summary differs from "Unable to enable letsencrypt"), the calls are the query,
the enable and the renewal-job call, so no `LetsencryptDisable` is issued, and
no state is stored. -/
theorem failure_aborts_operation (c : Remote) (h : List Call) :
    (∀ (state : domainResourceModel) (r : Response domainResourceModel),
      domainResource.Read c h state = some r → r.propagates c h = true) ∧
    (∀ plan : domainResourceModel,
      (domainResource.Create c h plan).propagates c h = true) ∧
    (∀ plan state : domainResourceModel,
      (domainResource.Update c h plan state).propagates c h = true) ∧
    (∀ state : domainResourceModel,
      (domainResource.Delete c h state).propagates c h = true) ∧
    (∀ state : letsencryptResourceModel,
      (letsencryptResource.Read c h state).propagates c h = true) ∧
    (∀ plan : letsencryptResourceModel,
      (letsencryptResource.Create c h plan).propagates c h = true) ∧
    (∀ plan state : letsencryptResourceModel,
      (letsencryptResource.Update c h plan state).propagates c h = true) ∧
    (∀ state : letsencryptResourceModel,
      (letsencryptResource.Delete c h state).propagates c h = true) ∧
    (∀ (k : LinkKind) (state : linkResourceModel),
      (linkResource.Read k c h state).propagates c h = true) ∧
    (∀ (k : LinkKind) (DoubleLineArg : Str → Str → Str) (plan : linkResourceModel),
      (linkResource.Create k DoubleLineArg c h plan).propagates c h = true) ∧
    (∀ (k : LinkKind) (plan state : linkResourceModel),
      (linkResource.Update k c h plan state).propagates c h = true) ∧
    (∀ (k : LinkKind) (state : linkResourceModel),
      (linkResource.Delete k c h state).propagates c h = true) ∧
    (∀ (M : Type) (r : Response M), r.propagates c h = true → r.State.isSet = true →
      c.outcomeOf h r.calls = .allSucceeded) ∧
    (∀ (plan : letsencryptResourceModel) (err : Str),
      c.LetsencryptIsEnabled h plan.AppName.ValueString = (false, none) →
      c.LetsencryptEnable (h ++ [.LetsencryptIsEnabled plan.AppName.ValueString])
        plan.AppName.ValueString = none →
      c.LetsencryptAddCronJob
        (h ++ [.LetsencryptIsEnabled plan.AppName.ValueString,
               .LetsencryptEnable plan.AppName.ValueString]) = some err →
      letsencryptResource.Create c h plan =
        { Diagnostics := [Diagnostic.AddError "Unable to add letsencrypt cronjob".toList
                           ("Unable to add letsencrypt cronjob. ".toList ++ err)],
          State := .untouched,
          calls := [.LetsencryptIsEnabled plan.AppName.ValueString,
                    .LetsencryptEnable plan.AppName.ValueString,
                    .LetsencryptAddCronJob] } ∧
      (∀ a, Call.LetsencryptDisable a ∉ (letsencryptResource.Create c h plan).calls) ∧
      "Unable to add letsencrypt cronjob".toList ≠ "Unable to enable letsencrypt".toList) := by
  refine ⟨domain_Read_propagates c h, domain_Create_propagates c h,
    domain_Update_propagates c h, domain_Delete_propagates c h,
    letsencrypt_Read_propagates c h, letsencrypt_Create_propagates c h, ?_,
    letsencrypt_Delete_propagates c h, fun k => link_Read_propagates k c h,
    fun k D => link_Create_propagates k D c h, ?_, fun k => link_Delete_propagates k c h,
    outcome_of_stored_state c h, ?_⟩
  · intro plan state
    rfl
  · intro k plan state
    rfl
  · intro plan err hq he hj
    have hC : letsencryptResource.Create c h plan =
        { Diagnostics := [Diagnostic.AddError "Unable to add letsencrypt cronjob".toList
                           ("Unable to add letsencrypt cronjob. ".toList ++ err)],
          State := .untouched,
          calls := [.LetsencryptIsEnabled plan.AppName.ValueString,
                    .LetsencryptEnable plan.AppName.ValueString,
                    .LetsencryptAddCronJob] } := by
      simp only [letsencryptResource.Create, hq, he, hj, Bool.false_eq_true, if_false]
    refine ⟨hC, ?_, by decide⟩
    intro a
    rw [hC]
    simp

/-- C12 at a concrete input: letsencrypt Create of `myapp` on a host where the
enable succeeds and the renewal-job call fails. -/
theorem failure_aborts_operation_witness :
    letsencryptResource.Create
        (Remote.failingOn (fun k => decide (k = .LetsencryptAddCronJob)) [] false) []
        myappCert =
      { Diagnostics := [Diagnostic.AddError "Unable to add letsencrypt cronjob".toList
                         ("Unable to add letsencrypt cronjob. ".toList ++ exitStatus1)],
        State := .untouched,
        calls := [.LetsencryptIsEnabled myappCert.AppName.ValueString,
                  .LetsencryptEnable myappCert.AppName.ValueString,
                  .LetsencryptAddCronJob] } :=
  ((failure_aborts_operation
      (Remote.failingOn (fun k => decide (k = .LetsencryptAddCronJob)) [] false) []).2.2.2.2.2.2.2.2.2.2.2.2.2
    myappCert exitStatus1 (by decide) (by decide) (by decide)).1

/-- The character with code 95 is the underscore. -/
theorem toNat_eq_underscore_iff (c : Char) : c.toNat = 95 ↔ c = '_' := by
  constructor
  · intro h
    have h2 : Char.ofNat c.toNat = Char.ofNat 95 := by rw [h]
    rw [Char.ofNat_toNat] at h2
    exact h2
  · rintro rfl
    rfl

/-- C13, the code at the failing input.  The alias `ALIAS_URL` is accepted by
the alias validator of the mariadb link and rejected by that of the nats link.
The mariadb validator accepts exactly the strings of uppercase ASCII letters
and underscores; the nats validator accepts exactly the strings of uppercase
ASCII letters. -/
theorem alias_validators_differ :
    mariaDBLinkResource.Schema.alias (.known "ALIAS_URL".toList) = true ∧
    natsLinkResource.Schema.alias (.known "ALIAS_URL".toList) = false ∧
    (∀ s : Str, mariaDBLinkResource.Schema.alias (.known s) = isUppercaseUnderscore s) ∧
    (∀ s : Str, natsLinkResource.Schema.alias (.known s) =
      s.all (fun c => decide (65 ≤ c.toNat) && decide (c.toNat ≤ 90))) := by
  refine ⟨by decide, by decide, fun s => ?_, fun s => ?_⟩
  · show List.all s (regexp.CharClass.mem { ranges := [('A', 'Z'), ('_', '_')] }) =
      List.all s (fun c => (decide (65 ≤ c.toNat) && decide (c.toNat ≤ 90)) || decide (c = '_'))
    congr 1
    funext c
    have h95 := toNat_eq_underscore_iff c
    have hA : 'A'.toNat = 65 := rfl
    have hZ : 'Z'.toNat = 90 := rfl
    have hU : '_'.toNat = 95 := rfl
    simp only [regexp.CharClass.mem, List.any_cons, List.any_nil, Bool.or_false, hA, hZ, hU]
    congr 1
    rw [Bool.eq_iff_iff]
    simp only [Bool.and_eq_true, decide_eq_true_eq]
    rw [← h95]
    omega
  · show List.all s (regexp.CharClass.mem { ranges := [('A', 'Z')] }) =
      List.all s (fun c => decide (65 ≤ c.toNat) && decide (c.toNat ≤ 90))
    congr 1
    funext c
    have hA : 'A'.toNat = 65 := rfl
    have hZ : 'Z'.toNat = 90 := rfl
    simp only [regexp.CharClass.mem, List.any_cons, List.any_nil, Bool.or_false, hA, hZ]

/-- The second piece of a split is missing exactly when the string has no
separator. -/
theorem index_Split_one_eq_none_iff (s : Str) (sep : Char) :
    index (strings.Split s sep) 1 = none ↔ sep ∉ s := by
  induction s with
  | nil => simp [strings.Split, index]
  | cons c cs ih =>
    by_cases hc : c = sep
    · subst hc
      cases hp : strings.Split cs c with
      | nil => exact absurd hp (Split_ne_nil _ _)
      | cons p ps => simp [strings.Split, index, hp]
    · cases hp : strings.Split cs sep with
      | nil => exact absurd hp (Split_ne_nil _ _)
      | cons p ps =>
        have hne : ¬ sep = c := fun e => hc e.symm
        rw [hp] at ih
        simp only [index, List.get?] at ih
        simp only [strings.Split, hc, if_false, hp, index, List.get?, List.mem_cons, hne,
          false_or]
        exact ih

/-- The first piece of a split always exists. -/
theorem index_Split_zero (s : Str) (sep : Char) :
    ∃ p0 ps, strings.Split s sep = p0 :: ps ∧ index (strings.Split s sep) 0 = some p0 := by
  cases hp : strings.Split s sep with
  | nil => exact absurd hp (Split_ne_nil _ _)
  | cons p ps => exact ⟨p, ps, rfl, rfl⟩

/-- The scan of the report lines panics exactly when the first line carrying
the key has no colon. -/
theorem rangeLines_eq_none_iff (d : Str) (lines : List Str) :
    domainResource.Read.rangeLines d lines = none ↔
      ∃ pre l post, lines = pre ++ l :: post ∧
        (∀ x ∈ pre, reportKey x ≠ some vhostsKey) ∧
        reportKey l = some vhostsKey ∧ ':' ∉ l := by
  induction lines with
  | nil => simp [domainResource.Read.rangeLines]
  | cons line rest ih =>
    obtain ⟨p0, ps, hp, h0⟩ := index_Split_zero line ':'
    have hkeyline : reportKey line = some (strings.TrimSpace p0) := by
      simp [reportKey, h0]
    rw [domainResource.Read.rangeLines]
    simp only [h0]
    by_cases hk : strings.TrimSpace p0 = "Domains app vhosts".toList
    · rw [if_pos hk]
      have hcarry : reportKey line = some vhostsKey := by rw [hkeyline, hk]; rfl
      have h1 := index_Split_one_eq_none_iff line ':'
      constructor
      · intro hnone
        have hidx : index (strings.Split line ':') 1 = none := by
          cases hi : index (strings.Split line ':') 1 with
          | none => rfl
          | some p1 =>
            rw [hi] at hnone
            simp only at hnone
            split_ifs at hnone
        exact ⟨[], line, rest, rfl, by simp, hcarry, h1.mp hidx⟩
      · rintro ⟨pre, l, post, hl, hpre, _, hcolon⟩
        cases pre with
        | nil =>
          simp only [List.nil_append, List.cons.injEq] at hl
          obtain ⟨rfl, -⟩ := hl
          rw [h1.mpr hcolon]
        | cons x xs =>
          simp only [List.cons_append, List.cons.injEq] at hl
          obtain ⟨rfl, -⟩ := hl
          exact absurd hcarry (hpre _ (by simp))
    · rw [if_neg hk]
      have hnocarry : reportKey line ≠ some vhostsKey := by
        rw [hkeyline]
        intro e
        exact hk (Option.some.inj e)
      rw [ih]
      constructor
      · rintro ⟨pre, l, post, hl, hpre, hl2, hcolon⟩
        refine ⟨line :: pre, l, post, by simp [hl], ?_, hl2, hcolon⟩
        intro x hx
        rcases List.mem_cons.mp hx with rfl | hx
        · exact hnocarry
        · exact hpre x hx
      · rintro ⟨pre, l, post, hl, hpre, hl2, hcolon⟩
        cases pre with
        | nil =>
          simp only [List.nil_append, List.cons.injEq] at hl
          obtain ⟨rfl, -⟩ := hl
          exact absurd hl2 hnocarry
        | cons x xs =>
          simp only [List.cons_append, List.cons.injEq] at hl
          obtain ⟨rfl, rfl⟩ := hl
          exact ⟨xs, l, post, rfl, fun y hy => hpre y (by simp [hy]), hl2, hcolon⟩

/-- C14, the code at the failing input.  When `domains:report` prints the bare
line `Domains app vhosts`, the scan reads `parts[1]` of a one-element split:
the scan and Read end in the index-out-of-range panic, neither found nor not
found.  The empty text is scanned to the end (not found), and the scan of any
text panics exactly when its first line carrying the key has no colon. -/
theorem domain_Read_bare_key_panics :
    domainResource.Read.rangeLines "example.com".toList
      (strings.Split (strings.TrimSuffix reportBareKey "\n".toList) '\n') = none ∧
    domainResource.Read (Remote.steady reportBareKey true) []
      (myappDomain "example.com".toList) = none ∧
    domainResource.Read (Remote.steady [] true) [] (myappDomain "example.com".toList) =
      some { Diagnostics := [Diagnostic.AddError "Domain not found".toList
                              "Domain not found".toList],
             State := .untouched, calls := [.run "domains:report myapp".toList] } ∧
    (∀ (d : Str) (lines : List Str),
      domainResource.Read.rangeLines d lines = none ↔
        ∃ pre l post, lines = pre ++ l :: post ∧
          (∀ x ∈ pre, reportKey x ≠ some vhostsKey) ∧
          reportKey l = some vhostsKey ∧ ':' ∉ l) :=
  ⟨by decide, by decide, by decide, rangeLines_eq_none_iff⟩

/-- Domain Import panics exactly on the identifiers without a space; on every
other identifier it sets both attributes and records nothing. -/
theorem domain_ImportState_cases (ID : Str) :
    (' ' ∉ ID → domainResource.ImportState ID = none) ∧
    (' ' ∈ ID → ∃ a k, domainResource.ImportState ID =
      some { Diagnostics := [], State := .set { AppName := .known a, Domain := .known k },
             calls := [] }) := by
  obtain ⟨p0, ps, hp, h0⟩ := index_Split_zero ID ' '
  have h1 := index_Split_one_eq_none_iff ID ' '
  constructor
  · intro hno
    simp only [domainResource.ImportState, h0, h1.mpr hno]
  · intro hyes
    cases hi : index (strings.Split ID ' ') 1 with
    | none => exact absurd (h1.mp hi) (not_not.mpr hyes)
    | some p1 =>
      exact ⟨p0, p1, by simp only [domainResource.ImportState, h0, hi]⟩

/-- Link Import panics exactly on the identifiers without a space; on every
other identifier it sets app_name and service_name and records nothing. -/
theorem link_ImportState_cases (ID : Str) :
    (' ' ∉ ID → linkResource.ImportState ID = none) ∧
    (' ' ∈ ID → ∃ a k al, linkResource.ImportState ID =
      some { Diagnostics := [],
             State := .set { AppName := .known a, ServiceName := .known k, Alias := al },
             calls := [] }) := by
  obtain ⟨p0, ps, hp, h0⟩ := index_Split_zero ID ' '
  have h1 := index_Split_one_eq_none_iff ID ' '
  constructor
  · intro hno
    simp only [linkResource.ImportState, h0, h1.mpr hno]
  · intro hyes
    cases hi : index (strings.Split ID ' ') 1 with
    | none => exact absurd (h1.mp hi) (not_not.mpr hyes)
    | some p1 =>
      by_cases hlen : (strings.Split ID ' ').length = 3
      · cases h2 : index (strings.Split ID ' ') 2 with
        | none =>
          have : (strings.Split ID ' ').length ≤ 2 := by
            simpa [index, List.get?_eq_none] using h2
          omega
        | some p2 =>
          exact ⟨p0, p1, .known p2, by simp only [linkResource.ImportState, h0, hi, hlen, h2,
            if_true]⟩
      · exact ⟨p0, p1, .null, by simp only [linkResource.ImportState, h0, hi, hlen,
          if_false]⟩

/-- C15, the code at the failing input.  Import of the identifier `myapp`, and
of the empty identifier, reads `parts[1]` of a one-element split: domain,
mariadb-link and nats-link Import end in the index-out-of-range panic, with
neither the attributes set nor an error diagnostic.  An identifier of four
fields is imported from its first two fields; Import panics exactly on the
identifiers that contain no space. -/
theorem Import_without_space_panics :
    domainResource.ImportState "myapp".toList = none ∧
    mariaDBLinkResource.ImportState "myapp".toList = none ∧
    natsLinkResource.ImportState "myapp".toList = none ∧
    domainResource.ImportState [] = none ∧
    mariaDBLinkResource.ImportState [] = none ∧
    natsLinkResource.ImportState [] = none ∧
    mariaDBLinkResource.ImportState "myapp mydb A B".toList =
      some { Diagnostics := [],
             State := .set { AppName := .known "myapp".toList,
                             ServiceName := .known "mydb".toList, Alias := .null },
             calls := [] } ∧
    (∀ ID : Str, domainResource.ImportState ID = none ↔ ' ' ∉ ID) ∧
    (∀ ID : Str, mariaDBLinkResource.ImportState ID = none ↔ ' ' ∉ ID) ∧
    (∀ ID : Str, natsLinkResource.ImportState ID = none ↔ ' ' ∉ ID) := by
  have hdom : ∀ ID : Str, domainResource.ImportState ID = none ↔ ' ' ∉ ID := by
    intro ID
    refine ⟨fun hn hmem => ?_, (domain_ImportState_cases ID).1⟩
    obtain ⟨a, k, hak⟩ := (domain_ImportState_cases ID).2 hmem
    rw [hak] at hn
    exact absurd hn (by simp)
  have hlink : ∀ ID : Str, linkResource.ImportState ID = none ↔ ' ' ∉ ID := by
    intro ID
    refine ⟨fun hn hmem => ?_, (link_ImportState_cases ID).1⟩
    obtain ⟨a, k, al, hak⟩ := (link_ImportState_cases ID).2 hmem
    rw [hak] at hn
    exact absurd hn (by simp)
  exact ⟨by decide, by decide, by decide, by decide, by decide, by decide, by decide,
    hdom, hlink, hlink⟩

end Dokku
